import Mathlib


/-!
# Verification of the Eddy `DiagramScene` core (src/eddy/widgets/scene.py)

This development shallowly embeds the diagram-scene model of the Eddy/Graphol
editor: the id and label indices (`nodesById`, `edgesById`, `nodesByLabel`),
the `addItem`/`removeItem` entry points, the pointer-driven interaction state
machine (edge insertion with a provisional pending edge, node-move capture and
drag), the `itemOnTopOf` hit query, and the axiom-composition methods.

Modelling conventions:
* Python objects (nodes, edges) are identified by a natural-number reference
  (`ref`, standing for Python object identity); their mutable state lives in
  per-ref environments (`nodeEnv`, `edgeEnv`) inside the `Scene` state, so that
  in-place mutation seen through every alias (e.g. setting the pending edge's
  `target` while the same object sits in `edgesById`) is modelled faithfully.
* Python `dict`s are modelled as key-indexed partial maps (`κ → Option α`).
  None of the verified claims depends on dict iteration order.
* Coordinates are exact rationals (`ℚ`); the Python floats carry no rounding
  concerns relevant to the claims (all arithmetic involved is +, -, /2 and
  grid rounding).
* Qt services out of scope of the repository (`QGraphicsScene` hit testing
  `items(point)` / `items(rect)`) are abstract query fields of the state
  (`itemsAt`, `itemsIn`); the rendering-graph membership maintained by
  `super().addItem`/`super().removeItem` is the list `itemList`.
-/

/-- A 2D point in scene coordinates (`QPointF`), with exact coordinates. -/
structure Pt where
  x : ℚ
  y : ℚ
deriving DecidableEq, Repr

instance : Add Pt := ⟨fun a b => ⟨a.x + b.x, a.y + b.y⟩⟩

instance : Sub Pt := ⟨fun a b => ⟨a.x - b.x, a.y - b.y⟩⟩

/-- An axis-aligned rectangle (`QRectF`), given by two corner points. -/
structure Rect where
  p1 : Pt
  p2 : Pt
deriving DecidableEq, Repr

/-- Partial-map update: Python `d[k] = v`. -/
def mset {κ α : Type} [DecidableEq κ] (m : κ → Option α) (k : κ) (v : α) :
    κ → Option α :=
  fun k' => if k' = k then some v else m k'

/-- Partial-map deletion: Python `d.pop(k, None)` / `del d[k]`. -/
def mdel {κ α : Type} [DecidableEq κ] (m : κ → Option α) (k : κ) :
    κ → Option α :=
  fun k' => if k' = k then none else m k'

/-- The everywhere-undefined map (a freshly created empty `dict`). -/
def memp {κ α : Type} : κ → Option α := fun _ => none

/-- `DistinctList.append` (eddy.datatypes, used for the `nodesByLabel` buckets
and for node `edges` sets). Modelled from the spec: the buckets are "ordered,
duplicate-free" sequences, so appending an element already present is a no-op
and otherwise the element goes to the back. -/
def dlAppend {α : Type} [DecidableEq α] (l : List α) (a : α) : List α :=
  if a ∈ l then l else l ++ [a]

/-- `DistinctList.remove`: removes the element if present, defensively doing
nothing when it is absent (spec §7: malformed input to defensive indexing
operations is ignored). On a duplicate-free list this is `List.erase`. -/
def dlRemove {α : Type} [DecidableEq α] (l : List α) (a : α) : List α :=
  l.erase a

/-- The node-type tag (`ItemType` node variants). Per-kind decoration
parameters not observed by any verified claim (restriction markers, the TOP
special flag) are omitted. -/
inductive NodeKind
  | Concept
  | Role
  | Attribute
  | ValueDomain
  | RoleInverse
  | Complement
  | DomainRestriction
  | RangeRestriction
  | RoleChain
  | Intersection
deriving DecidableEq, Repr

/-- The edge-type tag (`ItemType` edge variants). -/
inductive EdgeKind
  | Inclusion
  | Input
  | Equivalence
deriving DecidableEq, Repr

/-- A node label (`item.label`): `none` on the item models the Python nodes
without a `label` attribute (the `AttributeError` branch of `addItem`). -/
structure NodeLabel where
  editable : Bool
  text : String
deriving DecidableEq, Repr

/-- The state of one node object (`AbstractNode`): diagram id, type tag,
optional label, geometry, z stacking value, Qt selection flag, the incident
edge set `edges` (a `DistinctList` of edge refs) and the anchor-override
mapping `anchors` (edge ref to local attachment point, kept as the iterable
association list that `dict.items()` exposes). -/
structure SceneNode where
  id : String
  kind : NodeKind
  label : Option NodeLabel
  pos : Pt
  width : ℚ
  height : ℚ
  zValue : ℚ
  selected : Bool
  edges : List ℕ
  anchors : List (ℕ × Pt)
deriving DecidableEq, Repr

/-- The state of one edge object (`AbstractEdge`): diagram id, type tag,
endpoint node refs (`target` transiently absent during interactive
insertion), breakpoint path, z value, selection and the `functional`
decoration of Input edges. -/
structure SceneEdge where
  id : String
  kind : EdgeKind
  source : ℕ
  target : Option ℕ
  breakpoints : List Pt
  zValue : ℚ
  selected : Bool
  functional : Bool
deriving DecidableEq, Repr

/-- A reference to a scene item: a node object or an edge object. -/
inductive ItemRef
  | node (r : ℕ)
  | edge (r : ℕ)
deriving DecidableEq, Repr

def ItemRef.isNode : ItemRef → Bool
  | .node _ => true
  | .edge _ => false

def ItemRef.isEdge : ItemRef → Bool
  | .node _ => false
  | .edge _ => true

/-- `DiagramMode` (the interaction states reachable in scene.py's handlers). -/
inductive DiagramMode
  | Idle
  | NodeInsert
  | EdgeInsert
  | NodeMove
deriving DecidableEq, Repr

/-- Press-time snapshot of one captured node: its anchor overrides and its
position (`mousePressData['nodes'][node]`). -/
structure NodeSnap where
  anchors : List (ℕ × Pt)
  pos : Pt
deriving DecidableEq, Repr

/-- `mousePressData`: the captured nodes with their snapshots and the
captured edges with their breakpoint-list snapshots. -/
structure MoveData where
  nodes : List (ℕ × NodeSnap)
  edges : List (ℕ × List Pt)
deriving DecidableEq, Repr

/-- A command pushed on the undo stack (`QUndoStack`); the stack is modelled
as the list of pushed commands, depth = length. `QUndoStack.push` also runs
the command's `redo()`, which here re-applies an already-applied mutation
(the edge was indexed at press time, the moves were applied during the drag),
an index-level no-op outside every claim's scope. -/
inductive StackCmd
  | addEdge (er : ℕ)
  | addNode (nr : ℕ)
  | moveNodes (before after : MoveData)
deriving DecidableEq, Repr

/-- The `DiagramScene` state. `nodeEnv`/`edgeEnv` are the object heaps
(total over refs; refs never allocated hold junk objects). -/
structure Scene where
  nodeEnv : ℕ → SceneNode
  edgeEnv : ℕ → SceneEdge
  itemList : List ItemRef
  itemsAt : Pt → List ItemRef
  itemsIn : Rect → List ItemRef
  nodesById : String → Option ℕ
  edgesById : String → Option ℕ
  nodesByLabel : String → Option (List ℕ)
  undostack : List StackCmd
  mode : DiagramMode
  command : Option ℕ
  mouseOverNode : Option ItemRef
  mousePressPos : Option Pt
  mousePressNode : Option ItemRef
  mousePressNodePos : Option Pt
  mousePressData : Option MoveData
  snapEnabled : Bool
  nextRef : ℕ
  nextNodeId : ℕ
  nextEdgeId : ℕ

/-- Update the node object behind `r` in place. -/
def updNode (s : Scene) (r : ℕ) (f : SceneNode → SceneNode) : Scene :=
  { s with nodeEnv := fun r' => if r' = r then f (s.nodeEnv r') else s.nodeEnv r' }

/-- Update the edge object behind `r` in place. -/
def updEdge (s : Scene) (r : ℕ) (f : SceneEdge → SceneEdge) : Scene :=
  { s with edgeEnv := fun r' => if r' = r then f (s.edgeEnv r') else s.edgeEnv r' }

/-- The id of an item reference, read from the heaps. -/
def refId (s : Scene) : ItemRef → String
  | .node r => (s.nodeEnv r).id
  | .edge r => (s.edgeEnv r).id

/-- The z value of an item reference, read from the heaps. -/
def zOf (s : Scene) : ItemRef → ℚ
  | .node r => (s.nodeEnv r).zValue
  | .edge r => (s.edgeEnv r).zValue

/-- The selection flag of an item reference. -/
def refSelected (s : Scene) : ItemRef → Bool
  | .node r => (s.nodeEnv r).selected
  | .edge r => (s.edgeEnv r).selected

/-- The label-index key a node contributes under, when its label is editable
(`item.label.editable` and `item.labelText()`); `none` both for nodes without
a label attribute and for non-editable labels. -/
def labelKey (n : SceneNode) : Option String :=
  match n.label with
  | some lab => if lab.editable then some lab.text else none
  | none => none

/-!
## `DiagramScene.addItem` / `DiagramScene.removeItem` (scene.py 777-797, 858-879)
-/

/-- `DiagramScene.addItem`: `super().addItem(item)` (rendering graph), then
`collection[item.id] = item` on the index matching the item type, then — for
nodes with an editable label — append to the `nodesByLabel` bucket, creating
the bucket if absent (the `AttributeError` of unlabeled nodes is swallowed).
`super().addItem` on an item already in the scene is a Qt no-op, hence the
duplicate-free append on `itemList`. -/
def addItem (s : Scene) (i : ItemRef) : Scene :=
  let s := { s with itemList := dlAppend s.itemList i }
  match i with
  | .edge r => { s with edgesById := mset s.edgesById (s.edgeEnv r).id r }
  | .node r =>
    let s := { s with nodesById := mset s.nodesById (s.nodeEnv r).id r }
    match labelKey (s.nodeEnv r) with
    | some key =>
      match s.nodesByLabel key with
      | none => { s with nodesByLabel := mset s.nodesByLabel key (dlAppend [] r) }
      | some b => { s with nodesByLabel := mset s.nodesByLabel key (dlAppend b r) }
    | none => s

/-- `DiagramScene.removeItem`: `super().removeItem(item)`, then pop the id
from the matching index (`pop(item.id, None)` — defensive on absent ids),
then — for nodes with an editable label whose bucket exists — remove the node
from the bucket and delete the bucket if it became empty. -/
def removeItem (s : Scene) (i : ItemRef) : Scene :=
  let s := { s with itemList := s.itemList.erase i }
  match i with
  | .edge r => { s with edgesById := mdel s.edgesById (s.edgeEnv r).id }
  | .node r =>
    let s := { s with nodesById := mdel s.nodesById (s.nodeEnv r).id }
    match labelKey (s.nodeEnv r) with
    | some key =>
      match s.nodesByLabel key with
      | some b =>
        let b' := dlRemove b r
        if b' = [] then { s with nodesByLabel := mdel s.nodesByLabel key }
        else { s with nodesByLabel := mset s.nodesByLabel key b' }
      | none => s
    | none => s

/-- A single index-layer operation for the C1 invariant claim. -/
inductive SceneOp
  | add (i : ItemRef)
  | remove (i : ItemRef)

def applyOp (s : Scene) : SceneOp → Scene
  | .add i => addItem s i
  | .remove i => removeItem s i

def applyOps (s : Scene) : List SceneOp → Scene
  | [] => s
  | op :: rest => applyOps (applyOp s op) rest

/-!
## `DiagramScene.itemOnTopOf` (scene.py 824-841)
-/

/-- The filtered candidate list of `itemOnTopOf`: the items of the rendering
graph at `point` passing the `nodes`/`edges` filters and not in `skip`
(Python: `[x for x in self.items(point) if (nodes and x.isNode() or edges and
x.isEdge()) and x not in skip]`). -/
def hitCandidates (s : Scene) (p : Pt) (nodes edges : Bool)
    (skip : List ItemRef) : List ItemRef :=
  (s.itemsAt p).filter
    (fun x => (nodes && x.isNode || edges && x.isEdge) && !(skip.contains x))

/-- Python `max(data, key=zValue)` guarded by `if data`: scans left to right
keeping the current maximum, replacing it only on a strictly larger key (so
the first maximal element wins), `none` on the empty list. -/
def pyMaxZ (s : Scene) (l : List ItemRef) : Option ItemRef :=
  l.foldl
    (fun acc x =>
      match acc with
      | none => some x
      | some m => if zOf s m < zOf s x then some x else acc)
    none

/-- `DiagramScene.itemOnTopOf(point, nodes, edges, skip)`. -/
def itemOnTopOf (s : Scene) (p : Pt) (nodes edges : Bool)
    (skip : List ItemRef) : Option ItemRef :=
  pyMaxZ s (hitCandidates s p nodes edges skip)

/-!
## Geometry: grid snapping (eddy.functions.snapF, `DiagramScene.snapToGrid`)
-/

/-- `DiagramScene.GridSize`. -/
def GridSize : ℚ := 20

/-- `snapF` (eddy.functions, not under src/). Modelled from the spec:
`snap(value, gridSize, enabled)` rounds a coordinate to the nearest multiple
of `gridSize` when snapping is enabled, else identity (spec §4.2). -/
def snapF (value gridSize : ℚ) (snap : Bool) : ℚ :=
  if snap then ((round (value / gridSize) : ℤ) : ℚ) * gridSize else value

/-- `DiagramScene.snapToGrid` (scene.py 913-926): snaps both axes
independently when the `scene/snap_to_grid` setting is enabled. -/
def snapToGrid (s : Scene) (p : Pt) : Pt :=
  if s.snapEnabled then ⟨snapF p.x GridSize true, snapF p.y GridSize true⟩
  else p

/-!
## Identity service and object constructors

`UniqueID` and the node/edge classes (eddy.utils / eddy.items) are not under
src/. Modelled from the spec: the Identity service hands out `n<counter>` /
`e<counter>` ids at creation time (§4.1, §3); constructing an item does not
insert it into the scene (insertion happens only through `addItem`).
-/

def mkNodeId (k : ℕ) : String := "n" ++ toString k

def mkEdgeId (k : ℕ) : String := "e" ++ toString k

/-- Default shape extents per node kind. Shape painting is out of scope; no
verified claim observes the concrete values (they only feed the abstract
occupancy probes). -/
def defaultW : NodeKind → ℚ
  | .Concept => 110
  | .Role => 70
  | .Attribute => 20
  | .ValueDomain => 90
  | .RoleInverse => 50
  | .Complement => 50
  | .DomainRestriction => 20
  | .RangeRestriction => 20
  | .RoleChain => 50
  | .Intersection => 50

def defaultH : NodeKind → ℚ
  | .Concept => 50
  | .Role => 50
  | .Attribute => 20
  | .ValueDomain => 40
  | .RoleInverse => 30
  | .Complement => 30
  | .DomainRestriction => 20
  | .RangeRestriction => 20
  | .RoleChain => 30
  | .Intersection => 30

/-- Node constructor: allocates a fresh object ref and a fresh `n<k>` id.
Modelled from the spec: construction registers nothing in the scene. The
label setup of freshly constructed nodes is not observed by any claim (the
composers never index them). -/
def allocNode (s : Scene) (k : NodeKind) : Scene × ℕ :=
  let r := s.nextRef
  let n : SceneNode :=
    { id := mkNodeId s.nextNodeId, kind := k, label := none, pos := ⟨0, 0⟩,
      width := defaultW k, height := defaultH k, zValue := 0,
      selected := false, edges := [], anchors := [] }
  ({ s with nodeEnv := fun r' => if r' = r then n else s.nodeEnv r',
            nextRef := r + 1, nextNodeId := s.nextNodeId + 1 }, r)

/-- Edge constructor: allocates a fresh object ref and a fresh `e<k>` id.
Modelled from the spec: construction registers nothing in the scene; the
`target` may be absent (provisional edge). -/
def allocEdge (s : Scene) (k : EdgeKind) (src : ℕ) (tgt : Option ℕ)
    (bps : List Pt) (fn : Bool) : Scene × ℕ :=
  let r := s.nextRef
  let e : SceneEdge :=
    { id := mkEdgeId s.nextEdgeId, kind := k, source := src, target := tgt,
      breakpoints := bps, zValue := 0, selected := false, functional := fn }
  ({ s with edgeEnv := fun r' => if r' = r then e else s.edgeEnv r',
            nextRef := r + 1, nextEdgeId := s.nextEdgeId + 1 }, r)

/-!
## Interaction state machine (scene.py 177-402)
-/

/-- `QGraphicsScene.clearSelection`: deselect every item. -/
def clearSelection (s : Scene) : Scene :=
  { s with nodeEnv := fun r => { s.nodeEnv r with selected := false },
           edgeEnv := fun r => { s.edgeEnv r with selected := false } }

/-- `DiagramScene.selectedNodes()` (via `selectedItems()`): the selected
nodes of the rendering graph (labels are not scene-indexed items here, so the
isNode/isEdge filter of `selectedItems` is the node filter). -/
def selectedNodeRefs (s : Scene) : List ℕ :=
  s.itemList.filterMap
    (fun i =>
      match i with
      | .node r => if (s.nodeEnv r).selected then some r else none
      | .edge _ => none)

/-- The `pos()` of an item reference (edges never reach the uses below:
`itemOnTopOf` is always called with `edges=False` there). -/
def refPos (s : Scene) : ItemRef → Pt
  | .node r => (s.nodeEnv r).pos
  | .edge _ => ⟨0, 0⟩

/-- `edge.other(node)` (edge class not under src/). Modelled from the spec:
the endpoint other than `node`; absent while the edge is provisional. -/
def edgeOther (s : Scene) (er nr : ℕ) : Option ℕ :=
  let e := s.edgeEnv er
  if nr = e.source then e.target else some e.source

/-- `edge.other(node).isSelected()` as used at scene.py 275; an absent other
endpoint is treated as unselected. -/
def otherSelected (s : Scene) (er nr : ℕ) : Bool :=
  match edgeOther s er nr with
  | some o => (s.nodeEnv o).selected
  | none => false

/-- The press-time snapshot of one node (`{'anchors': {...}, 'pos': node.pos()}`). -/
def nodeSnapOf (s : Scene) (r : ℕ) : NodeSnap :=
  ⟨(s.nodeEnv r).anchors, (s.nodeEnv r).pos⟩

/-- scene.py 270-276: collect, per captured node, the incident edges whose
other endpoint is also selected, each once, with a copy of its breakpoints. -/
def captureEdges (s : Scene) (nodes : List ℕ) : List (ℕ × List Pt) :=
  nodes.foldl
    (fun acc nr =>
      (s.nodeEnv nr).edges.foldl
        (fun acc er =>
          if acc.any (fun pr => pr.1 == er) then acc
          else if otherSelected s er nr then
            acc ++ [(er, (s.edgeEnv er).breakpoints)]
          else acc)
        acc)
    []

/-- `mousePressData` as initialized at scene.py 261-276. -/
def buildMoveData (s : Scene) (nodes : List ℕ) : MoveData :=
  { nodes := nodes.map (fun r => (r, nodeSnapOf s r)),
    edges := captureEdges s nodes }

/-- The item-movement preparation of `mousePressEvent` (scene.py 235-276),
modelled from the point after `super().mousePressEvent` has updated the Qt
selection: if nodes are selected and a node lies under the press point, it
becomes the mouse grabber and the per-node / per-edge snapshots are taken. -/
def pressIdleBody (s : Scene) (p : Pt) : Scene :=
  let selected := selectedNodeRefs s
  if selected = [] then s
  else
    let res := itemOnTopOf s p true false []
    let s := { s with mousePressNode := res }
    match res with
    | some g =>
      { s with mousePressNodePos := some (refPos s g),
               mousePressPos := some p,
               mousePressData := some (buildMoveData s selected) }
    | none => s

/-- The edge-insertion branch of `mousePressEvent` (scene.py 204-226): if a
node is under the press point, construct a provisional edge from it (`target`
absent), hold the `CommandEdgeAdd` without pushing it, and `self.addItem` the
edge (`edge.updateEdge(target=scenePos)` recomputes the rendered path only).
`k` is the edge factory selected in `modeParam`. -/
def pressEdgeInsertBody (s : Scene) (k : EdgeKind) (p : Pt) : Scene :=
  match itemOnTopOf s p true false [] with
  | some (.node nr) =>
    let (s, er) := allocEdge s k nr none [] false
    let s := { s with command := some er }
    addItem s (.edge er)
  | _ => s

/-- `mousePressEvent` with the primary button (scene.py 177-276). The
node-insertion branch is not modelled (no verified claim concerns it). -/
def mousePressLeft (s : Scene) (k : EdgeKind) (p : Pt) : Scene :=
  match s.mode with
  | .NodeInsert => s
  | .EdgeInsert => pressEdgeInsertBody s k p
  | .Idle => pressIdleBody s p
  | .NodeMove => s

/-- The breakpoint index-assignment loop of scene.py 320-322
(`edge.breakpoints[i] = breakpoints[i] + delta` for `i < len(snapshot)`):
positions `0..len(snapshot)-1` of the live list are overwritten with the
shifted snapshot (during a drag both lists have equal length, making this the
pointwise update). -/
def assignBps (live snap : List Pt) (d : Pt) : List Pt :=
  snap.map (fun b => b + d) ++ live.drop snap.length

/-- `node.anchors` lookup. -/
def alookup (l : List (ℕ × Pt)) (k : ℕ) : Option Pt :=
  (l.find? (fun pr => pr.1 == k)).map (fun pr => pr.2)

/-- `node.setAnchor(edge, pos)`: dict assignment on the anchor mapping —
replace in place if the key exists, else append (Python dicts preserve
insertion order). -/
def aset (l : List (ℕ × Pt)) (k : ℕ) (v : Pt) : List (ℕ × Pt) :=
  if l.any (fun pr => pr.1 == k) then
    l.map (fun pr => if pr.1 == k then (k, v) else pr)
  else l ++ [(k, v)]

/-- The two movement loops of scene.py 319-329: shift every captured edge's
breakpoints, then every captured node's position and anchor overrides, all by
`delta` from their press-time snapshots (`node.updateEdges()` recomputes
geometry only). The per-node body is the combined in-place effect of
`setPos` and the `setAnchor` loop on the node object. -/
def applyMoveDelta (s : Scene) (data : MoveData) (delta : Pt) : Scene :=
  let s := data.edges.foldl
    (fun s pr =>
      updEdge s pr.1
        (fun e => { e with breakpoints := assignBps e.breakpoints pr.2 delta }))
    s
  data.nodes.foldl
    (fun s pr =>
      updNode s pr.1
        (fun n =>
          { n with
            pos := pr.2.pos + delta,
            anchors := pr.2.anchors.foldl
              (fun a q => aset a q.1 (q.2 + delta)) n.anchors }))
    s

/-- `mouseMoveEvent` with the primary button held (scene.py 278-331). In
`EdgeInsert` with a held command, the pending edge's rendered path follows
the pointer (geometry only) and `mouseOverNode` tracks the node under the
pointer excluding the source; otherwise a captured press upgrades `Idle` to
`NodeMove` (`setMode`), and in `NodeMove` the snapshots are re-applied at
`delta = snapToGrid(grabberSnapshotPos + eventPos - pressPos) -
grabberSnapshotPos`. The wildcard arm of the inner match is unreachable in
`NodeMove` (the capture set all three fields). -/
def mouseMoveLeft (s : Scene) (p : Pt) : Scene :=
  match s.mode with
  | .EdgeInsert =>
    match s.command with
    | some er =>
      { s with
        mouseOverNode :=
          itemOnTopOf s p true false [ItemRef.node (s.edgeEnv er).source] }
    | none => s
  | _ =>
    let s :=
      if s.mode = .Idle ∧ s.mousePressNode.isSome then
        { s with mode := .NodeMove }
      else s
    if s.mode = .NodeMove then
      match s.mousePressNodePos, s.mousePressPos, s.mousePressData with
      | some gpos, some ppos, some data =>
        let snapped := snapToGrid s (gpos + p - ppos)
        applyMoveDelta s data (snapped - gpos)
      | _, _, _ => s
    else s

/-- The edge-insertion branch of `mouseReleaseEvent` (scene.py 348-375): if a
node other than the pending edge's source is under the release point, set the
edge's `target`, register the edge on both endpoint nodes (`addEdge`), and
push the held `CommandEdgeAdd`; else `removeItem` the pending edge. Either
way clear the selection and drop the held command (`edgeInserted` is an
external signal; `updateEdge()` recomputes geometry only). -/
def releaseEdgeInsertBody (s : Scene) (p : Pt) : Scene :=
  match s.command with
  | some er =>
    let src := (s.edgeEnv er).source
    let s :=
      match itemOnTopOf s p true false [ItemRef.node src] with
      | some (.node tr) =>
        let s := updEdge s er (fun e => { e with target := some tr })
        let s := updNode s src (fun n => { n with edges := dlAppend n.edges er })
        let s := updNode s tr (fun n => { n with edges := dlAppend n.edges er })
        { s with undostack := s.undostack ++ [StackCmd.addEdge er] }
      | _ => removeItem s (.edge er)
    let s := clearSelection s
    { s with command := none, mouseOverNode := none }
  | none => s

/-- `mouseReleaseEvent` with the primary button (scene.py 333-402). In
`NodeMove`, one `CommandNodeMove` holding the press-time and current
snapshots is pushed unconditionally and the mode returns to `Idle`; the four
press-capture fields are reset in every case. -/
def mouseReleaseLeft (s : Scene) (p : Pt) : Scene :=
  let s :=
    match s.mode with
    | .EdgeInsert => releaseEdgeInsertBody s p
    | .NodeMove =>
      match s.mousePressData with
      | some data =>
        let after : MoveData :=
          { nodes := data.nodes.map
              (fun pr : ℕ × NodeSnap => (pr.1, nodeSnapOf s pr.1)),
            edges := data.edges.map
              (fun pr : ℕ × List Pt => (pr.1, (s.edgeEnv pr.1).breakpoints)) }
        let s := { s with undostack := s.undostack ++ [StackCmd.moveNodes data after] }
        { s with mode := .Idle }
      | none => s
    | _ => s
  { s with mousePressPos := none, mousePressNode := none,
           mousePressNodePos := none, mousePressData := none }

/-!
## Axiom composition (scene.py 473-769)

Each composer constructs fresh nodes/edges and returns them without inserting
anything into the scene (`self.items(QRectF)` occupancy probes read the
abstract `itemsIn` query). The searching composers return `none` in the
second component to mark the `TypeError` the Python raises at
`node.setPos(None)` when no candidate was ever selected — the scene
component is the state at that point (no index is touched on any path).
-/

/-- `sys.maxsize` on a 64-bit CPython build. -/
def maxsize : ℕ := 9223372036854775807

/-- `len(self.items(QRectF(anchor + o - rad, anchor + o + rad)))`: the
occupancy of the probe rectangle centered at `anchor + o`. -/
def probeCount (s : Scene) (anchor rad o : Pt) : ℕ :=
  (s.itemsIn ⟨anchor + o - rad, anchor + o + rad⟩).length

/-- The offset-search loop shared by the single-node composers (scene.py
518-526 and twins): scan the candidate offsets in order, keeping the first
one whose probe occupancy is strictly below the best so far (initial best
`sys.maxsize`, initial position `None`). -/
def offsetSearch (s : Scene) (anchor rad : Pt) (offsets : List Pt) :
    Option Pt × ℕ :=
  offsets.foldl
    (fun acc o =>
      let c := probeCount s anchor rad o
      if c < acc.2 then (some (anchor + o), c) else acc)
    ((none : Option Pt), maxsize)

/-- The fixed eight-candidate offset list (right, left, above, below, four
diagonals) built from the source's half-extents plus the clearance margins
(scene.py 507-516 and twins). -/
def stdOffsets (w h : ℚ) : List Pt :=
  [⟨snapF (w / 2 + 90) GridSize true, 0⟩,
   ⟨snapF (-(w / 2) - 90) GridSize true, 0⟩,
   ⟨0, snapF (-(h / 2) - 70) GridSize true⟩,
   ⟨0, snapF (h / 2 + 70) GridSize true⟩,
   ⟨snapF (w / 2 + 90) GridSize true, snapF (-(h / 2) - 70) GridSize true⟩,
   ⟨snapF (-(w / 2) - 90) GridSize true, snapF (-(h / 2) - 70) GridSize true⟩,
   ⟨snapF (w / 2 + 90) GridSize true, snapF (h / 2 + 70) GridSize true⟩,
   ⟨snapF (-(w / 2) - 90) GridSize true, snapF (h / 2 + 70) GridSize true⟩]

/-- `DiagramScene.symmetricRoleAxiomComposition` (scene.py 718-735): one
RoleInverse node right of the source, one Input edge and one Inclusion edge
source→inverse, the latter with the two breakpoints routing the loop above
the source. -/
def symmetricRoleAxiomComposition (s : Scene) (src : ℕ) :
    Scene × (ℕ × ℕ × ℕ) :=
  let sn := s.nodeEnv src
  let x1 := snapF (sn.pos.x + sn.width / 2 + 100) GridSize true
  let y1 := snapF (sn.pos.y - sn.height / 2 - 80) GridSize true
  let (s, n1) := allocNode s .RoleInverse
  let s := updNode s n1 (fun n => { n with pos := ⟨x1, sn.pos.y⟩ })
  let (s, e1) := allocEdge s .Input src (some n1) [] false
  let (s, e2) := allocEdge s .Inclusion src (some n1)
    [⟨sn.pos.x, y1⟩, ⟨x1, y1⟩] false
  (s, (n1, e1, e2))

/-- `DiagramScene.asymmetricRoleAxiomComposition` (scene.py 473-494). -/
def asymmetricRoleAxiomComposition (s : Scene) (src : ℕ) :
    Scene × (ℕ × ℕ × ℕ × ℕ × ℕ) :=
  let sn := s.nodeEnv src
  let x1 := snapF (sn.pos.x + sn.width / 2 + 100) GridSize true
  let y1 := snapF (sn.pos.y - sn.height / 2 - 40) GridSize true
  let y2 := snapF (sn.pos.y - sn.height / 2 - 80) GridSize true
  let (s, n1) := allocNode s .RoleInverse
  let s := updNode s n1 (fun n => { n with pos := ⟨x1, sn.pos.y⟩ })
  let (s, n2) := allocNode s .Complement
  let s := updNode s n2 (fun n => { n with pos := ⟨x1, y1⟩ })
  let (s, e1) := allocEdge s .Input src (some n1) [] false
  let (s, e2) := allocEdge s .Input n1 (some n2) [] false
  let (s, e3) := allocEdge s .Inclusion src (some n2)
    [⟨sn.pos.x, y2⟩, ⟨x1, y2⟩] false
  (s, (n1, n2, e1, e2, e3))

/-- `DiagramScene.functionalAxiomComposition` (scene.py 496-530): an
exists-DomainRestriction node fed by one functional Input edge, positioned by
the offset search around the source. -/
def functionalAxiomComposition (s : Scene) (src : ℕ) :
    Scene × Option (ℕ × ℕ) :=
  let sn := s.nodeEnv src
  let (s, n1) := allocNode s .DomainRestriction
  let (s, e1) := allocEdge s .Input src (some n1) [] true
  let rad : Pt := ⟨(s.nodeEnv n1).width / 2, (s.nodeEnv n1).height / 2⟩
  match (offsetSearch s sn.pos rad (stdOffsets sn.width sn.height)).1 with
  | some pos => (updNode s n1 (fun n => { n with pos := pos }), some (n1, e1))
  | none => (s, none)

/-- `DiagramScene.inverseFunctionalAxiomComposition` (scene.py 532-566):
as the functional composer with a RangeRestriction node. -/
def inverseFunctionalAxiomComposition (s : Scene) (src : ℕ) :
    Scene × Option (ℕ × ℕ) :=
  let sn := s.nodeEnv src
  let (s, n1) := allocNode s .RangeRestriction
  let (s, e1) := allocEdge s .Input src (some n1) [] true
  let rad : Pt := ⟨(s.nodeEnv n1).width / 2, (s.nodeEnv n1).height / 2⟩
  match (offsetSearch s sn.pos rad (stdOffsets sn.width sn.height)).1 with
  | some pos => (updNode s n1 (fun n => { n with pos := pos }), some (n1, e1))
  | none => (s, none)

/-- `DiagramScene.propertyDomainAxiomComposition` (scene.py 590-624): as the
functional composer with a plain (non-functional) Input edge. -/
def propertyDomainAxiomComposition (s : Scene) (src : ℕ) :
    Scene × Option (ℕ × ℕ) :=
  let sn := s.nodeEnv src
  let (s, n1) := allocNode s .DomainRestriction
  let (s, e1) := allocEdge s .Input src (some n1) [] false
  let rad : Pt := ⟨(s.nodeEnv n1).width / 2, (s.nodeEnv n1).height / 2⟩
  match (offsetSearch s sn.pos rad (stdOffsets sn.width sn.height)).1 with
  | some pos => (updNode s n1 (fun n => { n with pos := pos }), some (n1, e1))
  | none => (s, none)

/-- `DiagramScene.irreflexiveRoleAxiomComposition` (scene.py 568-588). -/
def irreflexiveRoleAxiomComposition (s : Scene) (src : ℕ) :
    Scene × (ℕ × ℕ × ℕ × ℕ × ℕ × ℕ) :=
  let sn := s.nodeEnv src
  let x1 := snapF (sn.pos.x + sn.width / 2 + 40) GridSize true
  let x2 := snapF (sn.pos.x + sn.width / 2 + 120) GridSize true
  let x3 := snapF (sn.pos.x + sn.width / 2 + 250) GridSize true
  let (s, n1) := allocNode s .DomainRestriction
  let s := updNode s n1 (fun n => { n with pos := ⟨x1, sn.pos.y⟩ })
  let (s, n2) := allocNode s .Complement
  let s := updNode s n2 (fun n => { n with pos := ⟨x2, sn.pos.y⟩ })
  let (s, n3) := allocNode s .Concept
  let s := updNode s n3 (fun n => { n with pos := ⟨x3, sn.pos.y⟩ })
  let (s, e1) := allocEdge s .Input src (some n1) [] false
  let (s, e2) := allocEdge s .Input n1 (some n2) [] false
  let (s, e3) := allocEdge s .Inclusion n3 (some n2) [] false
  (s, (n1, n2, n3, e1, e2, e3))

/-- `DiagramScene.reflexiveRoleAxiomComposition` (scene.py 700-716). -/
def reflexiveRoleAxiomComposition (s : Scene) (src : ℕ) :
    Scene × (ℕ × ℕ × ℕ × ℕ) :=
  let sn := s.nodeEnv src
  let x1 := snapF (sn.pos.x + sn.width / 2 + 40) GridSize true
  let x2 := snapF (sn.pos.x + sn.width / 2 + 250) GridSize true
  let (s, n1) := allocNode s .DomainRestriction
  let s := updNode s n1 (fun n => { n with pos := ⟨x1, sn.pos.y⟩ })
  let (s, n2) := allocNode s .Concept
  let s := updNode s n2 (fun n => { n with pos := ⟨x2, sn.pos.y⟩ })
  let (s, e1) := allocEdge s .Input src (some n1) [] false
  let (s, e2) := allocEdge s .Inclusion n2 (some n1) [] false
  (s, (n1, n2, e1, e2))

/-- `DiagramScene.transitiveRoleAxiomComposition` (scene.py 737-769). -/
def transitiveRoleAxiomComposition (s : Scene) (src : ℕ) :
    Scene × (ℕ × ℕ × ℕ × ℕ) :=
  let sn := s.nodeEnv src
  let x1 := snapF (sn.pos.x + sn.width / 2 + 90) GridSize true
  let x2 := snapF (sn.pos.x + sn.width / 2 + 50) GridSize true
  let x3 := snapF (sn.pos.x - sn.width / 2 - 20) GridSize true
  let y1 := snapF (sn.pos.y - sn.height / 2 - 20) GridSize true
  let y2 := snapF (sn.pos.y + sn.height / 2 + 20) GridSize true
  let y3 := snapF (sn.pos.y - sn.height / 2 + 80) GridSize true
  let (s, n1) := allocNode s .RoleChain
  let s := updNode s n1 (fun n => { n with pos := ⟨x1, sn.pos.y⟩ })
  let (s, e1) := allocEdge s .Input src (some n1)
    [⟨sn.pos.x, y1⟩, ⟨x2, y1⟩] false
  let (s, e2) := allocEdge s .Input src (some n1)
    [⟨sn.pos.x, y2⟩, ⟨x2, y2⟩] false
  let (s, e3) := allocEdge s .Inclusion n1 (some src)
    [⟨x1, y3⟩, ⟨x3, y3⟩, ⟨x3, sn.pos.y⟩] false
  (s, (n1, e1, e2, e3))

/-- `DiagramScene.propertyRangeAxiomComposition` (scene.py 626-698): a
RangeRestriction node fed by an Input edge; on an Attribute source
additionally a ValueDomain node linked by an Inclusion edge, the pair of
positions minimizing the summed occupancy over the product of the two
candidate lists. A source that is neither Role nor Attribute reaches the
`node2.width()` call on `None` (scene.py 668) — marked by `none`. -/
def propertyRangeAxiomComposition (s : Scene) (src : ℕ) :
    Scene × Option (ℕ × ℕ × Option (ℕ × ℕ)) :=
  let sn := s.nodeEnv src
  let (s, n1) := allocNode s .RangeRestriction
  let (s, e1) := allocEdge s .Input src (some n1) [] false
  let (s, on2e2) :=
    if sn.kind = .Attribute then
      let (s, n2) := allocNode s .ValueDomain
      let (s, e2) := allocEdge s .Inclusion n1 (some n2) [] false
      (s, some (n2, e2))
    else (s, (none : Option (ℕ × ℕ)))
  let offs1 := stdOffsets sn.width sn.height
  let offs2 : List Pt :=
    [⟨snapF ((s.nodeEnv n1).width / 2 + 120) GridSize true, 0⟩,
     ⟨snapF (-((s.nodeEnv n1).width / 2) - 120) GridSize true, 0⟩,
     ⟨0, snapF (-((s.nodeEnv n1).height / 2) - 80) GridSize true⟩,
     ⟨0, snapF ((s.nodeEnv n1).height / 2 + 80) GridSize true⟩]
  let pairs := offs1.flatMap (fun o1 => offs2.map (fun o2 => (o1, o2)))
  let rad1 : Pt := ⟨(s.nodeEnv n1).width / 2, (s.nodeEnv n1).height / 2⟩
  if sn.kind = .Role then
    let res := pairs.foldl
      (fun acc pr =>
        let c1 := probeCount s sn.pos rad1 pr.1
        if c1 < acc.2 then (some (sn.pos + pr.1), c1) else acc)
      ((none : Option Pt), maxsize)
    match res.1 with
    | some p1 =>
      (updNode s n1 (fun n => { n with pos := p1 }), some (n1, e1, none))
    | none => (s, none)
  else
    match on2e2 with
    | some (n2, e2) =>
      let rad2 : Pt := ⟨(s.nodeEnv n2).width / 2, (s.nodeEnv n2).height / 2⟩
      let res := pairs.foldl
        (fun acc pr =>
          let c1 := probeCount s sn.pos rad1 pr.1
          let c2 := probeCount s sn.pos rad2 (pr.1 + pr.2)
          if c1 + c2 < acc.2.1 + acc.2.2 then
            ((some (sn.pos + pr.1), some (sn.pos + pr.1 + pr.2)), (c1, c2))
          else acc)
        (((none, none) : Option Pt × Option Pt), (maxsize, maxsize))
      match res.1 with
      | (some p1, some p2) =>
        let s := updNode s n1 (fun n => { n with pos := p1 })
        let s := updNode s n2 (fun n => { n with pos := p2 })
        (s, some (n1, e1, some (n2, e2)))
      | _ => (s, none)
    | none => (s, none)

/-!
## Invariant vocabulary for the index claims
-/

/-- `DiagramScene.__init__` (scene.py 128-153): empty indices, empty undo
stack, `Idle` mode, no held command, no press capture. The heaps and the
abstract Qt queries are parameters (a freshly created Python scene contains
no objects yet; unused refs hold junk). -/
def initScene (nEnv : ℕ → SceneNode) (eEnv : ℕ → SceneEdge)
    (iAt : Pt → List ItemRef) (iIn : Rect → List ItemRef) (snap : Bool) :
    Scene :=
  { nodeEnv := nEnv, edgeEnv := eEnv, itemList := [], itemsAt := iAt,
    itemsIn := iIn, nodesById := memp, edgesById := memp,
    nodesByLabel := memp, undostack := [], mode := .Idle, command := none,
    mouseOverNode := none, mousePressPos := none, mousePressNode := none,
    mousePressNodePos := none, mousePressData := none, snapEnabled := snap,
    nextRef := 0, nextNodeId := 0, nextEdgeId := 0 }

/-- Every binding of `nodesById` maps an id to a node carrying that id. -/
def InvById (s : Scene) : Prop :=
  ∀ k r, s.nodesById k = some r → (s.nodeEnv r).id = k

/-- Every existing label bucket is nonempty, duplicate-free, and contains
only editable-label nodes whose label text is the bucket key. -/
def InvBuckets (s : Scene) : Prop :=
  ∀ key b, s.nodesByLabel key = some b →
    b ≠ [] ∧ b.Nodup ∧ ∀ r ∈ b, labelKey (s.nodeEnv r) = some key

/-- An editable-label node sits in its label's bucket exactly when
`nodesById` maps its id to it. -/
def InvIff (s : Scene) : Prop :=
  ∀ r key, labelKey (s.nodeEnv r) = some key →
    ((∃ b, s.nodesByLabel key = some b ∧ r ∈ b) ↔
      s.nodesById (s.nodeEnv r).id = some r)

/-- The full index invariant maintained across `addItem`/`removeItem`. -/
def SceneInv (s : Scene) : Prop :=
  InvById s ∧ InvBuckets s ∧ InvIff s

/-- The observable property of claim C1 / spec P2: no empty bucket persists,
and a node with an editable label is in the bucket of its label text exactly
when it is a value of `nodesById`. -/
def LabelIndexConsistent (s : Scene) : Prop :=
  (∀ key b, s.nodesByLabel key = some b → b ≠ []) ∧
  ∀ r key, labelKey (s.nodeEnv r) = some key →
    ((∃ b, s.nodesByLabel key = some b ∧ r ∈ b) ↔
      ∃ k, s.nodesById k = some r)

/-- A non-colliding operation: the operated item's id is not currently bound
to a *different* object in the index of its type (fresh ids, re-adding the
indexed object itself, and removing absent items all qualify; what is
excluded is exactly the silent duplicate-id overwrite of scene.py 786). -/
def opOk (s : Scene) : SceneOp → Prop
  | .add (.node r) => ∀ r', s.nodesById (s.nodeEnv r).id = some r' → r' = r
  | .remove (.node r) => ∀ r', s.nodesById (s.nodeEnv r).id = some r' → r' = r
  | .add (.edge _) => True
  | .remove (.edge _) => True

/-- Every operation of the sequence is non-colliding in the state where it
executes. -/
def opsOk (s : Scene) : List SceneOp → Prop
  | [] => True
  | op :: rest => opOk s op ∧ opsOk (applyOp s op) rest

/-- The earliest index attaining the minimum of an indexed count function —
the determinacy property of the offset search (claim C7). -/
def EarliestArgmin (n : ℕ) (cnt : ℕ → ℕ) (i : ℕ) : Prop :=
  i < n ∧ (∀ j, j < n → cnt i ≤ cnt j) ∧ ∀ j, j < i → cnt i < cnt j

/-!
## Concrete objects for the per-claim witnesses and counterexamples
-/

/-- A concept node with an editable label, for the index examples. -/
def exNode (i : String) (t : String) : SceneNode :=
  { id := i, kind := .Concept, label := some ⟨true, t⟩, pos := ⟨0, 0⟩,
    width := 110, height := 50, zValue := 0, selected := false,
    edges := [], anchors := [] }

/-- A junk edge object for unallocated refs. -/
def exEdge : SceneEdge :=
  { id := "e0", kind := .Inclusion, source := 0, target := none,
    breakpoints := [], zValue := 0, selected := false, functional := false }

/-- Heap for the C1 example scenes: every node ref holds a concept labelled
"x" with id "n0" (distinct refs are distinct objects sharing id and label). -/
def exSceneC1 : Scene :=
  initScene (fun _ => exNode "n0" "x") (fun _ => exEdge) (fun _ => [])
    (fun _ => []) false

/-- The colliding sequence behind the C1 counterexample: two distinct node
objects with the same id are added, then the second is removed. -/
def exOpsC1 : List SceneOp :=
  [.add (.node 0), .add (.node 1), .remove (.node 1)]

/-- A well-behaved sequence for the C1 witness: add two nodes with distinct
ids, remove one. -/
def exSceneC1w : Scene :=
  initScene
    (fun r => if r = 0 then exNode "n0" "x" else exNode "n1" "x")
    (fun _ => exEdge) (fun _ => []) (fun _ => []) false

def exOpsC1w : List SceneOp :=
  [.add (.node 0), .add (.node 1), .remove (.node 0)]

/-- A second junk edge object with a different id. -/
def exEdge9 : SceneEdge := { exEdge with id := "e9" }

/-- A second concept node with a different id. -/
def exNode9 : SceneNode := exNode "n9" "y"

/-- Scene for the C9 witness: `n0` is bound to object 0 in `nodesById` and
`e0` to object 0 in `edgesById`; refs 0-2 carry id `n0`/`e0`, higher refs
carry the unbound ids `n9`/`e9`. -/
def exSceneC9 : Scene :=
  { initScene (fun r => if r ≤ 2 then exNode "n0" "x" else exNode9)
      (fun r => if r ≤ 2 then exEdge else exEdge9)
      (fun _ => []) (fun _ => []) false with
    nodesById := mset memp "n0" 0,
    edgesById := mset memp "e0" 0 }

/-!
## `itemOnTopOf` correctness (claim C10)
-/

/-- Scene for the C10 witness: three items stacked under every point, the
node of ref 1 on top. -/
def exSceneC10 : Scene :=
  initScene
    (fun r => if r = 1 then { exNode "n1" "x" with zValue := 5 }
              else { exNode "n0" "x" with zValue := 1 })
    (fun _ => exEdge)
    (fun _ => [ItemRef.node 0, ItemRef.node 1, ItemRef.edge 0])
    (fun _ => []) false

/-!
## Edge insertion: press / move / release characterizations (claims C2, C3)
-/

/-- The provisional edge object built by the edge factory at press time:
source captured, target absent, fresh `e<counter>` id. -/
def pendingEdgeOf (s : Scene) (k : EdgeKind) (src : ℕ) : SceneEdge :=
  { id := mkEdgeId s.nextEdgeId, kind := k, source := src, target := none,
    breakpoints := [], zValue := 0, selected := false, functional := false }

/-- Scene for the C2/C3 witnesses: two concept nodes committed, edge-insert
mode armed; node 0 sits under ⟨0,0⟩ and node 1 under ⟨5,5⟩, nothing under
⟨9,9⟩. -/
def exSceneC2 : Scene :=
  { initScene
      (fun r => if r = 1 then exNode "n1" "y" else exNode "n0" "x")
      (fun _ => exEdge)
      (fun p => if p = ⟨0, 0⟩ then [ItemRef.node 0]
                else if p = ⟨5, 5⟩ then [ItemRef.node 1] else [])
      (fun _ => []) false with
    mode := .EdgeInsert,
    itemList := [ItemRef.node 0, ItemRef.node 1],
    nodesById := mset (mset memp "n0" 0) "n1" 1,
    nextRef := 2, nextNodeId := 2 }

/-- Scene for the C4/C5 witnesses: one selected concept node under every
point, grid snapping off. -/
def exSceneC4 : Scene :=
  { initScene (fun _ => { exNode "n0" "x" with selected := true })
      (fun _ => exEdge)
      (fun _ => [ItemRef.node 0]) (fun _ => []) false with
    itemList := [ItemRef.node 0] }

/-!
## C5: the per-item effect of one `NodeMove` mouse-move event
-/

/-- The per-captured-edge step of the first movement loop (scene.py 319-322). -/
def mvEdgeStep (delta : Pt) (s : Scene) (pr : ℕ × List Pt) : Scene :=
  updEdge s pr.1
    (fun e => { e with breakpoints := assignBps e.breakpoints pr.2 delta })

/-- The per-captured-node step of the second movement loop (scene.py 323-329). -/
def mvNodeStep (delta : Pt) (s : Scene) (pr : ℕ × NodeSnap) : Scene :=
  updNode s pr.1
    (fun n =>
      { n with
        pos := pr.2.pos + delta,
        anchors := pr.2.anchors.foldl
          (fun a q => aset a q.1 (q.2 + delta)) n.anchors })

/-- Snapshot for the C5 witness: one captured node (ref 0, snapshot
position (2,3), one anchor override) and one captured edge (ref 1, one
snapshot breakpoint). -/
def exDataC5 : MoveData :=
  { nodes := [(0, { anchors := [(1, ⟨5, 5⟩)], pos := ⟨2, 3⟩ })],
    edges := [(1, [⟨1, 1⟩])] }

/-- Scene for the C5 witness: mid-gesture in `NodeMove`, grid snapping off,
grabber snapshot at the origin, press at the origin. -/
def exSceneC5 : Scene :=
  { initScene (fun _ => exNode "n0" "x")
      (fun _ => { exEdge with breakpoints := [⟨1, 1⟩] })
      (fun _ => []) (fun _ => []) false with
    mode := .NodeMove,
    mousePressNode := some (ItemRef.node 0),
    mousePressNodePos := some ⟨0, 0⟩,
    mousePressPos := some ⟨0, 0⟩,
    mousePressData := some exDataC5 }

/-!
## C7: determinacy of the offset search
-/

/-- One step of the offset-search loop (scene.py 518-526). -/
def osStep (s : Scene) (anchor rad : Pt) (acc : Option Pt × ℕ) (o : Pt) :
    Option Pt × ℕ :=
  if probeCount s anchor rad o < acc.2 then
    (some (anchor + o), probeCount s anchor rad o)
  else acc

/-- Scene for the C7 witness: no items anywhere, so every probe counts 0. -/
def exSceneC7 : Scene :=
  initScene (fun _ => exNode "n0" "x") (fun _ => exEdge) (fun _ => [])
    (fun _ => []) false

/-- Scene for the C6 witness: one existing concept node behind ref 0, next
fresh ref 1. -/
def exSceneC6 : Scene :=
  { initScene (fun _ => exNode "n0" "x") (fun _ => exEdge) (fun _ => [])
      (fun _ => []) false with nextRef := 1 }

/-!
## C8: composers never touch the committed collections
-/

/-- The three committed collections of the scene are the same in `t` as in
`s`. -/
def IndicesUnchanged (t s : Scene) : Prop :=
  t.nodesById = s.nodesById ∧ t.edgesById = s.edgesById ∧
    t.nodesByLabel = s.nodesByLabel

/-!
## Theorems
-/

theorem Pt.add_def (a b : Pt) : a + b = ⟨a.x + b.x, a.y + b.y⟩ := rfl

theorem Pt.sub_def (a b : Pt) : a - b = ⟨a.x - b.x, a.y - b.y⟩ := rfl

theorem mset_same {κ α : Type} [DecidableEq κ] (m : κ → Option α) (k : κ)
    (v : α) : mset m k v k = some v := by
  simp [mset]

theorem mset_other {κ α : Type} [DecidableEq κ] (m : κ → Option α) (k k' : κ)
    (v : α) (h : k' ≠ k) : mset m k v k' = m k' := by
  simp [mset, h]

theorem mdel_same {κ α : Type} [DecidableEq κ] (m : κ → Option α) (k : κ) :
    mdel m k k = none := by
  simp [mdel]

theorem mdel_other {κ α : Type} [DecidableEq κ] (m : κ → Option α) (k k' : κ)
    (h : k' ≠ k) : mdel m k k' = m k' := by
  simp [mdel, h]

/-- Deleting an absent key is a no-op (`d.pop(k, None)` with `k` unmapped). -/
theorem mdel_absent {κ α : Type} [DecidableEq κ] (m : κ → Option α) (k : κ)
    (h : m k = none) : mdel m k = m := by
  funext k'
  by_cases hk : k' = k
  · subst hk; simp [mdel, h]
  · simp [mdel, hk]

/-- Re-inserting the binding a key already has is a no-op. -/
theorem mset_redundant {κ α : Type} [DecidableEq κ] (m : κ → Option α) (k : κ)
    (v : α) (h : m k = some v) : mset m k v = m := by
  funext k'
  by_cases hk : k' = k
  · subst hk; simp [mset, h]
  · simp [mset, hk]

theorem dlAppend_mem_iff {α : Type} [DecidableEq α] (l : List α) (a b : α) :
    b ∈ dlAppend l a ↔ b ∈ l ∨ b = a := by
  unfold dlAppend
  by_cases h : a ∈ l
  · simp only [if_pos h]
    constructor
    · exact fun hb => Or.inl hb
    · rintro (hb | rfl)
      · exact hb
      · exact h
  · simp [if_neg h]

theorem dlAppend_nodup {α : Type} [DecidableEq α] (l : List α) (a : α)
    (h : l.Nodup) : (dlAppend l a).Nodup := by
  unfold dlAppend
  by_cases ha : a ∈ l
  · simpa [if_pos ha]
  · simpa [if_neg ha, List.nodup_append, h]

theorem dlAppend_ne_nil {α : Type} [DecidableEq α] (l : List α) (a : α) :
    dlAppend l a ≠ [] := by
  unfold dlAppend
  by_cases ha : a ∈ l
  · simp only [if_pos ha]
    intro h
    rw [h] at ha
    exact absurd ha (List.not_mem_nil a)
  · simp [if_neg ha]

theorem dlAppend_of_mem {α : Type} [DecidableEq α] (l : List α) (a : α)
    (h : a ∈ l) : dlAppend l a = l := by
  simp [dlAppend, h]

theorem mem_dlAppend_self {α : Type} [DecidableEq α] (l : List α) (a : α) :
    a ∈ dlAppend l a := by
  rw [dlAppend_mem_iff]; exact Or.inr rfl

theorem dlRemove_not_mem {α : Type} [DecidableEq α] (l : List α) (a : α)
    (h : l.Nodup) : a ∉ dlRemove l a :=
  h.not_mem_erase

theorem dlRemove_mem_of_ne {α : Type} [DecidableEq α] (l : List α) (a b : α)
    (hne : b ≠ a) : b ∈ dlRemove l a ↔ b ∈ l :=
  List.mem_erase_of_ne hne

theorem dlRemove_of_not_mem {α : Type} [DecidableEq α] (l : List α) (a : α)
    (h : a ∉ l) : dlRemove l a = l :=
  List.erase_of_not_mem h

theorem dlRemove_nodup {α : Type} [DecidableEq α] (l : List α) (a : α)
    (h : l.Nodup) : (dlRemove l a).Nodup :=
  h.erase a

theorem dlRemove_subset {α : Type} [DecidableEq α] (l : List α) (a b : α)
    (h : b ∈ dlRemove l a) : b ∈ l :=
  List.mem_of_mem_erase h

/-!
## Structural lemmas for the index operations
-/

theorem addItem_edge_def (s : Scene) (r : ℕ) :
    addItem s (.edge r) =
      { s with itemList := dlAppend s.itemList (.edge r),
               edgesById := mset s.edgesById (s.edgeEnv r).id r } := rfl

theorem addItem_node_def_nolabel (s : Scene) (r : ℕ)
    (h : labelKey (s.nodeEnv r) = none) :
    addItem s (.node r) =
      { s with itemList := dlAppend s.itemList (.node r),
               nodesById := mset s.nodesById (s.nodeEnv r).id r } := by
  unfold addItem
  dsimp only
  rw [h]

theorem addItem_node_def_newbucket (s : Scene) (r : ℕ) (key : String)
    (h : labelKey (s.nodeEnv r) = some key)
    (hb : s.nodesByLabel key = none) :
    addItem s (.node r) =
      { s with itemList := dlAppend s.itemList (.node r),
               nodesById := mset s.nodesById (s.nodeEnv r).id r,
               nodesByLabel := mset s.nodesByLabel key (dlAppend [] r) } := by
  unfold addItem
  dsimp only
  rw [h]
  dsimp only
  rw [hb]

theorem addItem_node_def_oldbucket (s : Scene) (r : ℕ) (key : String)
    (b : List ℕ) (h : labelKey (s.nodeEnv r) = some key)
    (hb : s.nodesByLabel key = some b) :
    addItem s (.node r) =
      { s with itemList := dlAppend s.itemList (.node r),
               nodesById := mset s.nodesById (s.nodeEnv r).id r,
               nodesByLabel := mset s.nodesByLabel key (dlAppend b r) } := by
  unfold addItem
  dsimp only
  rw [h]
  dsimp only
  rw [hb]

theorem removeItem_edge_def (s : Scene) (r : ℕ) :
    removeItem s (.edge r) =
      { s with itemList := s.itemList.erase (.edge r),
               edgesById := mdel s.edgesById (s.edgeEnv r).id } := rfl

theorem removeItem_node_def_nolabel (s : Scene) (r : ℕ)
    (h : labelKey (s.nodeEnv r) = none) :
    removeItem s (.node r) =
      { s with itemList := s.itemList.erase (.node r),
               nodesById := mdel s.nodesById (s.nodeEnv r).id } := by
  unfold removeItem
  dsimp only
  rw [h]

theorem removeItem_node_def_nobucket (s : Scene) (r : ℕ) (key : String)
    (h : labelKey (s.nodeEnv r) = some key)
    (hb : s.nodesByLabel key = none) :
    removeItem s (.node r) =
      { s with itemList := s.itemList.erase (.node r),
               nodesById := mdel s.nodesById (s.nodeEnv r).id } := by
  unfold removeItem
  dsimp only
  rw [h]
  dsimp only
  rw [hb]

theorem removeItem_node_def_emptied (s : Scene) (r : ℕ) (key : String)
    (b : List ℕ) (h : labelKey (s.nodeEnv r) = some key)
    (hb : s.nodesByLabel key = some b) (he : dlRemove b r = []) :
    removeItem s (.node r) =
      { s with itemList := s.itemList.erase (.node r),
               nodesById := mdel s.nodesById (s.nodeEnv r).id,
               nodesByLabel := mdel s.nodesByLabel key } := by
  unfold removeItem
  dsimp only
  rw [h]
  dsimp only
  rw [hb]
  dsimp only
  rw [if_pos he]

theorem removeItem_node_def_shrunk (s : Scene) (r : ℕ) (key : String)
    (b : List ℕ) (h : labelKey (s.nodeEnv r) = some key)
    (hb : s.nodesByLabel key = some b) (he : dlRemove b r ≠ []) :
    removeItem s (.node r) =
      { s with itemList := s.itemList.erase (.node r),
               nodesById := mdel s.nodesById (s.nodeEnv r).id,
               nodesByLabel := mset s.nodesByLabel key (dlRemove b r) } := by
  unfold removeItem
  dsimp only
  rw [h]
  dsimp only
  rw [hb]
  dsimp only
  rw [if_neg he]

theorem addItem_node_nodesById (s : Scene) (r : ℕ) :
    (addItem s (.node r)).nodesById = mset s.nodesById (s.nodeEnv r).id r := by
  cases h : labelKey (s.nodeEnv r) with
  | none => rw [addItem_node_def_nolabel s r h]
  | some key =>
    cases hb : s.nodesByLabel key with
    | none => rw [addItem_node_def_newbucket s r key h hb]
    | some b => rw [addItem_node_def_oldbucket s r key b h hb]

theorem addItem_node_edgesById (s : Scene) (r : ℕ) :
    (addItem s (.node r)).edgesById = s.edgesById := by
  cases h : labelKey (s.nodeEnv r) with
  | none => rw [addItem_node_def_nolabel s r h]
  | some key =>
    cases hb : s.nodesByLabel key with
    | none => rw [addItem_node_def_newbucket s r key h hb]
    | some b => rw [addItem_node_def_oldbucket s r key b h hb]

theorem removeItem_node_nodesById (s : Scene) (r : ℕ) :
    (removeItem s (.node r)).nodesById = mdel s.nodesById (s.nodeEnv r).id := by
  cases h : labelKey (s.nodeEnv r) with
  | none => rw [removeItem_node_def_nolabel s r h]
  | some key =>
    cases hb : s.nodesByLabel key with
    | none => rw [removeItem_node_def_nobucket s r key h hb]
    | some b =>
      by_cases he : dlRemove b r = []
      · rw [removeItem_node_def_emptied s r key b h hb he]
      · rw [removeItem_node_def_shrunk s r key b h hb he]

theorem removeItem_node_edgesById (s : Scene) (r : ℕ) :
    (removeItem s (.node r)).edgesById = s.edgesById := by
  cases h : labelKey (s.nodeEnv r) with
  | none => rw [removeItem_node_def_nolabel s r h]
  | some key =>
    cases hb : s.nodesByLabel key with
    | none => rw [removeItem_node_def_nobucket s r key h hb]
    | some b =>
      by_cases he : dlRemove b r = []
      · rw [removeItem_node_def_emptied s r key b h hb he]
      · rw [removeItem_node_def_shrunk s r key b h hb he]

theorem addItem_nodeEnv (s : Scene) (i : ItemRef) :
    (addItem s i).nodeEnv = s.nodeEnv := by
  cases i with
  | edge r => rw [addItem_edge_def]
  | node r =>
    cases h : labelKey (s.nodeEnv r) with
    | none => rw [addItem_node_def_nolabel s r h]
    | some key =>
      cases hb : s.nodesByLabel key with
      | none => rw [addItem_node_def_newbucket s r key h hb]
      | some b => rw [addItem_node_def_oldbucket s r key b h hb]

theorem removeItem_nodeEnv (s : Scene) (i : ItemRef) :
    (removeItem s i).nodeEnv = s.nodeEnv := by
  cases i with
  | edge r => rw [removeItem_edge_def]
  | node r =>
    cases h : labelKey (s.nodeEnv r) with
    | none => rw [removeItem_node_def_nolabel s r h]
    | some key =>
      cases hb : s.nodesByLabel key with
      | none => rw [removeItem_node_def_nobucket s r key h hb]
      | some b =>
        by_cases he : dlRemove b r = []
        · rw [removeItem_node_def_emptied s r key b h hb he]
        · rw [removeItem_node_def_shrunk s r key b h hb he]

theorem applyOp_nodeEnv (s : Scene) (op : SceneOp) :
    (applyOp s op).nodeEnv = s.nodeEnv := by
  cases op with
  | add i => exact addItem_nodeEnv s i
  | remove i => exact removeItem_nodeEnv s i

theorem addItem_edge_nodesById (s : Scene) (r : ℕ) :
    (addItem s (.edge r)).nodesById = s.nodesById := by
  rw [addItem_edge_def]

theorem addItem_edge_nodesByLabel (s : Scene) (r : ℕ) :
    (addItem s (.edge r)).nodesByLabel = s.nodesByLabel := by
  rw [addItem_edge_def]

theorem removeItem_edge_nodesById (s : Scene) (r : ℕ) :
    (removeItem s (.edge r)).nodesById = s.nodesById := by
  rw [removeItem_edge_def]

theorem removeItem_edge_nodesByLabel (s : Scene) (r : ℕ) :
    (removeItem s (.edge r)).nodesByLabel = s.nodesByLabel := by
  rw [removeItem_edge_def]

/-- C9: `addItem` with an item whose id is already a key of the matching
index silently overwrites that binding (the result index is exactly the
input index with the id re-bound to the new item — a total function, nothing
is raised), and `removeItem` with an item whose id is absent from its index
leaves both `nodesById` and `edgesById` unchanged (the defensive
`pop(item.id, None)` and the guarded bucket access absorb the miss). -/
theorem c9_defensive_index_operations :
    ∀ (s : Scene) (r : ℕ),
      (∀ r₀, s.nodesById (s.nodeEnv r).id = some r₀ →
        (addItem s (.node r)).nodesById =
          mset s.nodesById (s.nodeEnv r).id r) ∧
      (∀ r₀, s.edgesById (s.edgeEnv r).id = some r₀ →
        (addItem s (.edge r)).edgesById =
          mset s.edgesById (s.edgeEnv r).id r) ∧
      (s.nodesById (s.nodeEnv r).id = none →
        (removeItem s (.node r)).nodesById = s.nodesById ∧
        (removeItem s (.node r)).edgesById = s.edgesById) ∧
      (s.edgesById (s.edgeEnv r).id = none →
        (removeItem s (.edge r)).edgesById = s.edgesById ∧
        (removeItem s (.edge r)).nodesById = s.nodesById) := by
  intro s r
  refine ⟨fun r₀ _ => addItem_node_nodesById s r,
          fun r₀ _ => ?_,
          fun h => ⟨?_, removeItem_node_edgesById s r⟩,
          fun h => ⟨?_, removeItem_edge_nodesById s r⟩⟩
  · rw [addItem_edge_def]
  · rw [removeItem_node_nodesById, mdel_absent _ _ h]
  · rw [removeItem_edge_def]
    exact mdel_absent _ _ h

/-- Witness for C9 at a concrete scene: a duplicate-id node and edge insert
overwrite, and removals of unbound-id items leave both indices unchanged. -/
theorem c9_witness :
    ((addItem exSceneC9 (.node 1)).nodesById =
        mset exSceneC9.nodesById "n0" 1 ∧
      (addItem exSceneC9 (.edge 1)).edgesById =
        mset exSceneC9.edgesById "e0" 1) ∧
    ((removeItem exSceneC9 (.node 5)).nodesById = exSceneC9.nodesById ∧
      (removeItem exSceneC9 (.edge 5)).edgesById = exSceneC9.edgesById) := by
  have h1 := c9_defensive_index_operations exSceneC9 1
  have h5 := c9_defensive_index_operations exSceneC9 5
  exact ⟨⟨h1.1 0 rfl, h1.2.1 0 rfl⟩,
         ⟨(h5.2.2.1 rfl).1, (h5.2.2.2 rfl).1⟩⟩

/-!
## Preservation of the index invariant (claim C1)
-/

theorem sceneInv_congr (s t : Scene) (h1 : t.nodeEnv = s.nodeEnv)
    (h2 : t.nodesById = s.nodesById) (h3 : t.nodesByLabel = s.nodesByLabel)
    (hInv : SceneInv s) : SceneInv t := by
  unfold SceneInv InvById InvBuckets InvIff at *
  rw [h1, h2, h3]
  exact hInv

theorem sceneInv_initScene (nEnv : ℕ → SceneNode) (eEnv : ℕ → SceneEdge)
    (iAt : Pt → List ItemRef) (iIn : Rect → List ItemRef) (snap : Bool) :
    SceneInv (initScene nEnv eEnv iAt iIn snap) := by
  refine ⟨fun k r h => ?_, fun key b h => ?_, fun r key h => ?_⟩
  · simp [initScene, memp] at h
  · simp [initScene, memp] at h
  · constructor
    · rintro ⟨b, hb, -⟩
      simp [initScene, memp] at hb
    · intro hb
      simp [initScene, memp] at hb

theorem sceneInv_addItem_node (s : Scene) (r : ℕ) (hInv : SceneInv s)
    (hok : ∀ r', s.nodesById (s.nodeEnv r).id = some r' → r' = r) :
    SceneInv (addItem s (.node r)) := by
  obtain ⟨hById, hBuckets, hIff⟩ := hInv
  have hEnv : (addItem s (.node r)).nodeEnv = s.nodeEnv :=
    addItem_nodeEnv s (.node r)
  have hId : (addItem s (.node r)).nodesById =
      mset s.nodesById (s.nodeEnv r).id r := addItem_node_nodesById s r
  -- the new nodesById is invariant-compatible in every label branch
  have hById' : InvById (addItem s (.node r)) := by
    intro k r' h
    rw [hId] at h
    rw [hEnv]
    by_cases hk : k = (s.nodeEnv r).id
    · subst hk
      rw [mset_same] at h
      obtain rfl := Option.some_injective _ h
      rfl
    · rw [mset_other _ _ _ _ hk] at h
      exact hById k r' h
  -- case split on the label branch taken by addItem
  cases hlk : labelKey (s.nodeEnv r) with
  | none =>
    have hLab : (addItem s (.node r)).nodesByLabel = s.nodesByLabel := by
      rw [addItem_node_def_nolabel s r hlk]
    refine ⟨hById', ?_, ?_⟩
    · intro key b h
      rw [hLab] at h
      rw [hEnv]
      exact hBuckets key b h
    · intro r' key' hlk'
      rw [hEnv] at hlk'
      rw [hLab, hEnv, hId]
      by_cases hid : (s.nodeEnv r').id = (s.nodeEnv r).id
      · have hRold : ¬s.nodesById (s.nodeEnv r').id = some r' := by
          intro hco
          rw [hid] at hco
          obtain rfl := hok r' hco
          rw [hlk] at hlk'
          exact Option.noConfusion hlk'
        have hne : r' ≠ r := by
          rintro rfl
          rw [hlk] at hlk'
          exact Option.noConfusion hlk'
        constructor
        · intro hL
          exact absurd ((hIff r' key' hlk').mp hL) hRold
        · intro hR
          rw [hid, mset_same] at hR
          exact absurd (Option.some_injective _ hR).symm hne
      · rw [mset_other _ _ _ _ hid]
        exact hIff r' key' hlk'
  | some key =>
    -- r is not currently a value of nodesById at its id unless it is r itself;
    -- membership of r in the existing bucket mirrors that (via the old iff)
    cases hb : s.nodesByLabel key with
    | none =>
      have hLab : (addItem s (.node r)).nodesByLabel =
          mset s.nodesByLabel key (dlAppend [] r) := by
        rw [addItem_node_def_newbucket s r key hlk hb]
      refine ⟨hById', ?_, ?_⟩
      · intro key' b' h
        rw [hLab] at h
        rw [hEnv]
        by_cases hk : key' = key
        · subst hk
          rw [mset_same] at h
          obtain rfl := Option.some_injective _ h
          refine ⟨dlAppend_ne_nil _ _, dlAppend_nodup _ _ (List.nodup_nil), ?_⟩
          intro r' hr'
          rw [dlAppend_mem_iff] at hr'
          rcases hr' with hr' | rfl
          · exact absurd hr' (List.not_mem_nil r')
          · exact hlk
        · rw [mset_other _ _ _ _ hk] at h
          exact hBuckets key' b' h
      · intro r' key' hlk'
        rw [hEnv] at hlk'
        rw [hEnv, hId, hLab]
        by_cases hr : r' = r
        · subst hr
          rw [hlk] at hlk'
          obtain rfl := Option.some_injective _ hlk'
          constructor
          · intro _
            rw [mset_same]
          · intro _
            exact ⟨dlAppend [] r', by rw [mset_same], mem_dlAppend_self [] r'⟩
        · have hLnew : (∃ b', mset s.nodesByLabel key (dlAppend [] r) key' =
              some b' ∧ r' ∈ b') ↔
              ∃ b', s.nodesByLabel key' = some b' ∧ r' ∈ b' := by
            by_cases hk : key' = key
            · subst hk
              rw [hb]
              constructor
              · rintro ⟨b', hb', hm⟩
                rw [mset_same] at hb'
                obtain rfl := Option.some_injective _ hb'
                rw [dlAppend_mem_iff] at hm
                rcases hm with hm | rfl
                · exact absurd hm (List.not_mem_nil r')
                · exact absurd rfl hr
              · rintro ⟨b', hb', -⟩
                exact Option.noConfusion hb'
            · rw [mset_other _ _ _ _ hk]
          rw [hLnew]
          by_cases hid : (s.nodeEnv r').id = (s.nodeEnv r).id
          · have hRold : ¬s.nodesById (s.nodeEnv r').id = some r' := by
              intro hco
              rw [hid] at hco
              exact hr (hok r' hco)
            constructor
            · intro hL
              exact absurd ((hIff r' key' hlk').mp hL) hRold
            · intro hR
              rw [hid, mset_same] at hR
              exact absurd (Option.some_injective _ hR).symm hr
          · rw [mset_other _ _ _ _ hid]
            exact hIff r' key' hlk'
    | some b =>
      have hLab : (addItem s (.node r)).nodesByLabel =
          mset s.nodesByLabel key (dlAppend b r) := by
        rw [addItem_node_def_oldbucket s r key b hlk hb]
      obtain ⟨hbne, hbnd, hbmem⟩ := hBuckets key b hb
      refine ⟨hById', ?_, ?_⟩
      · intro key' b' h
        rw [hLab] at h
        rw [hEnv]
        by_cases hk : key' = key
        · subst hk
          rw [mset_same] at h
          obtain rfl := Option.some_injective _ h
          refine ⟨dlAppend_ne_nil _ _, dlAppend_nodup _ _ hbnd, ?_⟩
          intro r' hr'
          rw [dlAppend_mem_iff] at hr'
          rcases hr' with hr' | rfl
          · exact hbmem r' hr'
          · exact hlk
        · rw [mset_other _ _ _ _ hk] at h
          exact hBuckets key' b' h
      · intro r' key' hlk'
        rw [hEnv] at hlk'
        rw [hEnv, hId, hLab]
        by_cases hr : r' = r
        · subst hr
          rw [hlk] at hlk'
          obtain rfl := Option.some_injective _ hlk'
          constructor
          · intro _
            rw [mset_same]
          · intro _
            exact ⟨dlAppend b r', by rw [mset_same], mem_dlAppend_self b r'⟩
        · have hLnew : (∃ b', mset s.nodesByLabel key (dlAppend b r) key' =
              some b' ∧ r' ∈ b') ↔
              ∃ b', s.nodesByLabel key' = some b' ∧ r' ∈ b' := by
            by_cases hk : key' = key
            · subst hk
              rw [hb]
              constructor
              · rintro ⟨b', hb', hm⟩
                rw [mset_same] at hb'
                obtain rfl := Option.some_injective _ hb'
                rw [dlAppend_mem_iff] at hm
                rcases hm with hm | rfl
                · exact ⟨b, rfl, hm⟩
                · exact absurd rfl hr
              · rintro ⟨b', hb', hm⟩
                obtain rfl := Option.some_injective _ hb'
                refine ⟨dlAppend b r, by rw [mset_same], ?_⟩
                rw [dlAppend_mem_iff]
                exact Or.inl hm
            · rw [mset_other _ _ _ _ hk]
          rw [hLnew]
          by_cases hid : (s.nodeEnv r').id = (s.nodeEnv r).id
          · have hRold : ¬s.nodesById (s.nodeEnv r').id = some r' := by
              intro hco
              rw [hid] at hco
              exact hr (hok r' hco)
            constructor
            · intro hL
              exact absurd ((hIff r' key' hlk').mp hL) hRold
            · intro hR
              rw [hid, mset_same] at hR
              exact absurd (Option.some_injective _ hR).symm hr
          · rw [mset_other _ _ _ _ hid]
            exact hIff r' key' hlk'

theorem sceneInv_removeItem_node (s : Scene) (r : ℕ) (hInv : SceneInv s)
    (hok : ∀ r', s.nodesById (s.nodeEnv r).id = some r' → r' = r) :
    SceneInv (removeItem s (.node r)) := by
  obtain ⟨hById, hBuckets, hIff⟩ := hInv
  have hEnv : (removeItem s (.node r)).nodeEnv = s.nodeEnv :=
    removeItem_nodeEnv s (.node r)
  have hId : (removeItem s (.node r)).nodesById =
      mdel s.nodesById (s.nodeEnv r).id := removeItem_node_nodesById s r
  have hById' : InvById (removeItem s (.node r)) := by
    intro k r' h
    rw [hId] at h
    rw [hEnv]
    by_cases hk : k = (s.nodeEnv r).id
    · subst hk
      rw [mdel_same] at h
      exact Option.noConfusion h
    · rw [mdel_other _ _ _ hk] at h
      exact hById k r' h
  cases hs : s.nodesById (s.nodeEnv r).id with
  | none =>
    -- the id is absent: the pop is a no-op, and by the old iff the node is in
    -- no bucket, so the bucket surgery is a no-op as well
    have hIdEq : (removeItem s (.node r)).nodesById = s.nodesById := by
      rw [hId, mdel_absent _ _ hs]
    cases hlk : labelKey (s.nodeEnv r) with
    | none =>
      exact sceneInv_congr s _ hEnv hIdEq
        (by rw [removeItem_node_def_nolabel s r hlk]) ⟨hById, hBuckets, hIff⟩
    | some key =>
      cases hb : s.nodesByLabel key with
      | none =>
        exact sceneInv_congr s _ hEnv hIdEq
          (by rw [removeItem_node_def_nobucket s r key hlk hb])
          ⟨hById, hBuckets, hIff⟩
      | some b =>
        have hnot : r ∉ b := by
          intro hmem
          have := (hIff r key hlk).mp ⟨b, hb, hmem⟩
          rw [hs] at this
          exact Option.noConfusion this
        have hrem : dlRemove b r = b := dlRemove_of_not_mem b r hnot
        have hbne := (hBuckets key b hb).1
        have hne : dlRemove b r ≠ [] := by rw [hrem]; exact hbne
        have hLab : (removeItem s (.node r)).nodesByLabel = s.nodesByLabel := by
          rw [removeItem_node_def_shrunk s r key b hlk hb hne]
          exact mset_redundant _ _ _ (by rw [← hrem] at hb; exact hb)
        exact sceneInv_congr s _ hEnv hIdEq hLab ⟨hById, hBuckets, hIff⟩
  | some r₀ =>
    obtain rfl := hok r₀ hs
    cases hlk : labelKey (s.nodeEnv r₀) with
    | none =>
      have hLab : (removeItem s (.node r₀)).nodesByLabel = s.nodesByLabel := by
        rw [removeItem_node_def_nolabel s r₀ hlk]
      refine ⟨hById', ?_, ?_⟩
      · intro key b h
        rw [hLab] at h
        rw [hEnv]
        exact hBuckets key b h
      · intro r' key' hlk'
        rw [hEnv] at hlk'
        rw [hEnv, hId, hLab]
        have hr : r' ≠ r₀ := by
          rintro rfl
          rw [hlk] at hlk'
          exact Option.noConfusion hlk'
        by_cases hid : (s.nodeEnv r').id = (s.nodeEnv r₀).id
        · have hRold : ¬s.nodesById (s.nodeEnv r').id = some r' := by
            intro hco
            rw [hid, hs] at hco
            exact hr (Option.some_injective _ hco).symm
          constructor
          · intro hL
            exact absurd ((hIff r' key' hlk').mp hL) hRold
          · intro hR
            rw [hid, mdel_same] at hR
            exact Option.noConfusion hR
        · rw [mdel_other _ _ _ hid]
          exact hIff r' key' hlk'
    | some key =>
      -- the removed node is indexed, hence sits in its label bucket
      obtain ⟨b, hb, hmem⟩ := (hIff r₀ key hlk).mpr hs
      obtain ⟨hbne, hbnd, hbmem⟩ := hBuckets key b hb
      by_cases he : dlRemove b r₀ = []
      · -- the bucket empties and is deleted
        have hLab : (removeItem s (.node r₀)).nodesByLabel =
            mdel s.nodesByLabel key := by
          rw [removeItem_node_def_emptied s r₀ key b hlk hb he]
        -- an emptied duplicate-free bucket containing r₀ was exactly [r₀]
        have hsingle : ∀ x ∈ b, x = r₀ := by
          intro x hx
          by_contra hxne
          have : x ∈ dlRemove b r₀ := (dlRemove_mem_of_ne b r₀ x hxne).mpr hx
          rw [he] at this
          exact absurd this (List.not_mem_nil x)
        refine ⟨hById', ?_, ?_⟩
        · intro key' b' h
          rw [hLab] at h
          rw [hEnv]
          by_cases hk : key' = key
          · subst hk
            rw [mdel_same] at h
            exact Option.noConfusion h
          · rw [mdel_other _ _ _ hk] at h
            exact hBuckets key' b' h
        · intro r' key' hlk'
          rw [hEnv] at hlk'
          rw [hEnv, hId, hLab]
          by_cases hr : r' = r₀
          · subst hr
            rw [hlk] at hlk'
            obtain rfl := Option.some_injective _ hlk'
            constructor
            · rintro ⟨b', hb', hm⟩
              rw [mdel_same] at hb'
              exact Option.noConfusion hb'
            · intro hR
              rw [mdel_same] at hR
              exact Option.noConfusion hR
          · have hLnew : (∃ b', mdel s.nodesByLabel key key' = some b' ∧
                r' ∈ b') ↔ ∃ b', s.nodesByLabel key' = some b' ∧ r' ∈ b' := by
              by_cases hk : key' = key
              · subst hk
                rw [hb]
                constructor
                · rintro ⟨b', hb', -⟩
                  rw [mdel_same] at hb'
                  exact Option.noConfusion hb'
                · rintro ⟨b', hb', hm⟩
                  obtain rfl := Option.some_injective _ hb'
                  exact absurd (hsingle r' hm) hr
              · rw [mdel_other _ _ _ hk]
            rw [hLnew]
            by_cases hid : (s.nodeEnv r').id = (s.nodeEnv r₀).id
            · have hRold : ¬s.nodesById (s.nodeEnv r').id = some r' := by
                intro hco
                rw [hid, hs] at hco
                exact hr (Option.some_injective _ hco).symm
              constructor
              · intro hL
                exact absurd ((hIff r' key' hlk').mp hL) hRold
              · intro hR
                rw [hid, mdel_same] at hR
                exact Option.noConfusion hR
            · rw [mdel_other _ _ _ hid]
              exact hIff r' key' hlk'
      · -- the bucket shrinks in place
        have hLab : (removeItem s (.node r₀)).nodesByLabel =
            mset s.nodesByLabel key (dlRemove b r₀) := by
          rw [removeItem_node_def_shrunk s r₀ key b hlk hb he]
        refine ⟨hById', ?_, ?_⟩
        · intro key' b' h
          rw [hLab] at h
          rw [hEnv]
          by_cases hk : key' = key
          · subst hk
            rw [mset_same] at h
            obtain rfl := Option.some_injective _ h
            refine ⟨he, dlRemove_nodup b r₀ hbnd, ?_⟩
            intro r' hr'
            exact hbmem r' (dlRemove_subset b r₀ r' hr')
          · rw [mset_other _ _ _ _ hk] at h
            exact hBuckets key' b' h
        · intro r' key' hlk'
          rw [hEnv] at hlk'
          rw [hEnv, hId, hLab]
          by_cases hr : r' = r₀
          · subst hr
            rw [hlk] at hlk'
            obtain rfl := Option.some_injective _ hlk'
            constructor
            · rintro ⟨b', hb', hm⟩
              rw [mset_same] at hb'
              obtain rfl := Option.some_injective _ hb'
              exact absurd hm (dlRemove_not_mem b r' hbnd)
            · intro hR
              rw [mdel_same] at hR
              exact Option.noConfusion hR
          · have hLnew : (∃ b', mset s.nodesByLabel key (dlRemove b r₀) key' =
                some b' ∧ r' ∈ b') ↔
                ∃ b', s.nodesByLabel key' = some b' ∧ r' ∈ b' := by
              by_cases hk : key' = key
              · subst hk
                rw [hb]
                constructor
                · rintro ⟨b', hb', hm⟩
                  rw [mset_same] at hb'
                  obtain rfl := Option.some_injective _ hb'
                  exact ⟨b, rfl, dlRemove_subset b r₀ r' hm⟩
                · rintro ⟨b', hb', hm⟩
                  obtain rfl := Option.some_injective _ hb'
                  refine ⟨dlRemove b r₀, by rw [mset_same], ?_⟩
                  exact (dlRemove_mem_of_ne b r₀ r' hr).mpr hm
              · rw [mset_other _ _ _ _ hk]
            rw [hLnew]
            by_cases hid : (s.nodeEnv r').id = (s.nodeEnv r₀).id
            · have hRold : ¬s.nodesById (s.nodeEnv r').id = some r' := by
                intro hco
                rw [hid, hs] at hco
                exact hr (Option.some_injective _ hco).symm
              constructor
              · intro hL
                exact absurd ((hIff r' key' hlk').mp hL) hRold
              · intro hR
                rw [hid, mdel_same] at hR
                exact Option.noConfusion hR
            · rw [mdel_other _ _ _ hid]
              exact hIff r' key' hlk'

theorem sceneInv_applyOp (s : Scene) (op : SceneOp) (hInv : SceneInv s)
    (hok : opOk s op) : SceneInv (applyOp s op) := by
  cases op with
  | add i =>
    cases i with
    | node r => exact sceneInv_addItem_node s r hInv hok
    | edge r =>
      exact sceneInv_congr s _ (addItem_nodeEnv s (.edge r))
        (addItem_edge_nodesById s r) (addItem_edge_nodesByLabel s r) hInv
  | remove i =>
    cases i with
    | node r => exact sceneInv_removeItem_node s r hInv hok
    | edge r =>
      exact sceneInv_congr s _ (removeItem_nodeEnv s (.edge r))
        (removeItem_edge_nodesById s r) (removeItem_edge_nodesByLabel s r) hInv

theorem sceneInv_applyOps (s : Scene) (ops : List SceneOp) (hInv : SceneInv s)
    (hok : opsOk s ops) : SceneInv (applyOps s ops) := by
  induction ops generalizing s with
  | nil => exact hInv
  | cons op rest ih =>
    exact ih (applyOp s op) (sceneInv_applyOp s op hInv hok.1) hok.2

theorem sceneInv_labelIndexConsistent (s : Scene) (hInv : SceneInv s) :
    LabelIndexConsistent s := by
  obtain ⟨hById, hBuckets, hIff⟩ := hInv
  refine ⟨fun key b h => (hBuckets key b h).1, fun r key hlk => ?_⟩
  constructor
  · intro hL
    exact ⟨(s.nodeEnv r).id, (hIff r key hlk).mp hL⟩
  · rintro ⟨k, hk⟩
    have := hById k r hk
    subst this
    exact (hIff r key hlk).mpr hk

/-- C1 (amended): for every sequence of `addItem`/`removeItem` operations on
a freshly created `DiagramScene` in which no operation acts on an item whose
id is currently bound to a *different* object in the index of its type
(`opsOk` — e.g. every insert uses a fresh id), the label index stays
consistent with the id index: a node whose label is editable is a member of
the bucket `nodesByLabel[labelText]` iff it is a value of `nodesById`, and
no key of `nodesByLabel` maps to an empty bucket.  The restriction is forced
by the silent duplicate-id overwrite of `addItem` (scene.py 786, claim C9):
without it two objects sharing an id desynchronize the two indices, see the
counterexample. -/
theorem c1_label_index_consistency (nEnv : ℕ → SceneNode)
    (eEnv : ℕ → SceneEdge) (iAt : Pt → List ItemRef)
    (iIn : Rect → List ItemRef) (snap : Bool) (ops : List SceneOp)
    (hok : opsOk (initScene nEnv eEnv iAt iIn snap) ops) :
    LabelIndexConsistent (applyOps (initScene nEnv eEnv iAt iIn snap) ops) :=
  sceneInv_labelIndexConsistent _
    (sceneInv_applyOps _ ops (sceneInv_initScene nEnv eEnv iAt iIn snap) hok)

/-- Witness for C1 at a concrete run: two nodes with distinct fresh ids
sharing the label "x" are added and one is removed; the sequence is
non-colliding, so the consistency property holds of the resulting scene. -/
theorem c1_witness : LabelIndexConsistent (applyOps exSceneC1w exOpsC1w) := by
  apply c1_label_index_consistency
  refine ⟨?_, ?_, ?_, trivial⟩
  · intro r' h
    exact Option.noConfusion h
  · intro r' h
    exact Option.noConfusion h
  · intro r' h
    exact (Option.some_injective _ h).symm

/-- Counterexample to C1 as stated: the claim quantifies over *every*
sequence of `addItem`/`removeItem` operations, but after adding two distinct
node objects that share id "n0" and editable label "x" and removing the
second, node object 0 still sits in the bucket `nodesByLabel["x"]` while
`nodesById` is the empty map — the membership iff of the claim fails (object
0 is in a bucket yet indexed nowhere). -/
theorem c1_counterexample :
    (applyOps exSceneC1 exOpsC1).nodesByLabel "x" = some [0] ∧
    (applyOps exSceneC1 exOpsC1).nodesById = memp := by
  constructor
  · decide
  · funext k
    by_cases hk : k = "n0"
    · subst hk
      decide
    · show mdel (mset (mset memp "n0" 0) "n0" 1) "n0" k = none
      rw [mdel_other _ _ _ hk, mset_other _ _ _ _ hk, mset_other _ _ _ _ hk]
      rfl

theorem pyMaxZ_go (s : Scene) (l : List ItemRef) (m : ItemRef) :
    ∃ m', l.foldl
        (fun acc x =>
          match acc with
          | none => some x
          | some m => if zOf s m < zOf s x then some x else acc)
        (some m) = some m' ∧
      (m' = m ∨ m' ∈ l) ∧ zOf s m ≤ zOf s m' ∧ ∀ x ∈ l, zOf s x ≤ zOf s m' := by
  induction l generalizing m with
  | nil => exact ⟨m, rfl, Or.inl rfl, le_refl _, fun x hx => absurd hx (List.not_mem_nil x)⟩
  | cons x t ih =>
    by_cases hlt : zOf s m < zOf s x
    · obtain ⟨m', hfold, hmem, hle, hall⟩ := ih x
      refine ⟨m', ?_, ?_, ?_, ?_⟩
      · simpa [hlt] using hfold
      · rcases hmem with rfl | hmem
        · exact Or.inr (List.mem_cons_self _ _)
        · exact Or.inr (List.mem_cons_of_mem _ hmem)
      · exact le_trans (le_of_lt hlt) hle
      · intro y hy
        rcases List.mem_cons.mp hy with rfl | hy
        · exact hle
        · exact hall y hy
    · obtain ⟨m', hfold, hmem, hle, hall⟩ := ih m
      refine ⟨m', ?_, ?_, hle, ?_⟩
      · simpa [hlt] using hfold
      · rcases hmem with rfl | hmem
        · exact Or.inl rfl
        · exact Or.inr (List.mem_cons_of_mem _ hmem)
      · intro y hy
        rcases List.mem_cons.mp hy with rfl | hy
        · exact le_trans (le_of_not_lt hlt) hle
        · exact hall y hy

theorem hitCandidates_not_skip (s : Scene) (p : Pt) (nb eb : Bool)
    (skip : List ItemRef) (r : ItemRef)
    (h : r ∈ hitCandidates s p nb eb skip) : r ∉ skip := by
  unfold hitCandidates at h
  have := List.of_mem_filter h
  intro hmem
  simp [List.contains, List.elem_iff, hmem] at this

/-- Core characterization of `itemOnTopOf` shared by the claims below. -/
theorem itemOnTopOf_aux (s : Scene) (p : Pt) (nb eb : Bool)
    (sk : List ItemRef) :
    (itemOnTopOf s p nb eb sk = none ↔ hitCandidates s p nb eb sk = []) ∧
    ∀ r, itemOnTopOf s p nb eb sk = some r →
      r ∈ hitCandidates s p nb eb sk ∧ r ∉ sk ∧
      ∀ x ∈ hitCandidates s p nb eb sk, zOf s x ≤ zOf s r := by
  unfold itemOnTopOf pyMaxZ
  cases hc : hitCandidates s p nb eb sk with
  | nil => simp
  | cons x t =>
    obtain ⟨m', hfold, hmem, hle, hall⟩ := pyMaxZ_go s t x
    constructor
    · constructor
      · intro h
        rw [List.foldl_cons] at h
        rw [show (match (none : Option ItemRef) with
            | none => some x
            | some m => if zOf s m < zOf s x then some x else none) =
            some x from rfl] at h
        rw [hfold] at h
        exact Option.noConfusion h
      · intro h
        exact List.noConfusion h
    · intro r h
      rw [List.foldl_cons] at h
      rw [show (match (none : Option ItemRef) with
          | none => some x
          | some m => if zOf s m < zOf s x then some x else none) =
          some x from rfl] at h
      rw [hfold] at h
      obtain rfl := (Option.some_injective _ h).symm
      have hrin : r ∈ x :: t := by
        rcases hmem with rfl | hmem
        · exact List.mem_cons_self _ _
        · exact List.mem_cons_of_mem _ hmem
      refine ⟨hrin, hitCandidates_not_skip s p nb eb sk r (hc ▸ hrin), ?_⟩
      intro y hy
      rcases List.mem_cons.mp hy with rfl | hy
      · exact hle
      · exact hall y hy

/-- C10: `itemOnTopOf` returns `none` exactly when no item at the point
passes the nodes/edges filters outside the skip collection, and otherwise
returns a passing item, never one in `skip`, whose `zValue` is maximal among
the passing items; in particular (last conjunct) a call that skips the
pending edge's source — the shape of the call at scene.py 351 — can never
return that source as the prospective target. -/
theorem c10_itemOnTopOf_spec :
    ∀ (s : Scene) (p : Pt) (nb eb : Bool) (skip : List ItemRef),
      (itemOnTopOf s p nb eb skip = none ↔
        hitCandidates s p nb eb skip = []) ∧
      (∀ r, itemOnTopOf s p nb eb skip = some r →
        r ∈ hitCandidates s p nb eb skip ∧ r ∉ skip ∧
        ∀ x ∈ hitCandidates s p nb eb skip, zOf s x ≤ zOf s r) ∧
      (∀ src, itemOnTopOf s p nb eb (ItemRef.node src :: skip) ≠
        some (ItemRef.node src)) := by
  intro s p nb eb skip
  refine ⟨(itemOnTopOf_aux s p nb eb skip).1,
          (itemOnTopOf_aux s p nb eb skip).2, ?_⟩
  intro src h
  have := ((itemOnTopOf_aux s p nb eb (ItemRef.node src :: skip)).2 _ h).2.1
  exact this (List.mem_cons_self _ _)

/-- Witness for C10: on a three-item stack (two nodes, one edge) with the
ref-1 node on top and ref 0 skipped, the query returns the ref-1 node, which
is a passing candidate dominating the z value of the remaining node. -/
theorem c10_witness :
    itemOnTopOf exSceneC10 ⟨0, 0⟩ true false [] = some (ItemRef.node 1) ∧
    ItemRef.node 1 ∈ hitCandidates exSceneC10 ⟨0, 0⟩ true false [] ∧
    zOf exSceneC10 (ItemRef.node 0) ≤ zOf exSceneC10 (ItemRef.node 1) ∧
    itemOnTopOf exSceneC10 ⟨0, 0⟩ true false [ItemRef.node 1] ≠
      some (ItemRef.node 1) := by
  have h := ((c10_itemOnTopOf_spec exSceneC10 ⟨0, 0⟩ true false []).2.1
    (ItemRef.node 1)) (by decide)
  exact ⟨by decide, h.1, h.2.2 (ItemRef.node 0) (by decide),
    (c10_itemOnTopOf_spec exSceneC10 ⟨0, 0⟩ true false []).2.2 1⟩

theorem mousePressLeft_edgeInsert_eq (s : Scene) (k : EdgeKind) (p : Pt)
    (src : ℕ) (hmode : s.mode = .EdgeInsert)
    (hhit : itemOnTopOf s p true false [] = some (ItemRef.node src)) :
    mousePressLeft s k p =
      { s with
        edgeEnv := fun r' => if r' = s.nextRef then pendingEdgeOf s k src
                             else s.edgeEnv r',
        nextRef := s.nextRef + 1,
        nextEdgeId := s.nextEdgeId + 1,
        command := some s.nextRef,
        itemList := dlAppend s.itemList (ItemRef.edge s.nextRef),
        edgesById := mset s.edgesById (mkEdgeId s.nextEdgeId) s.nextRef } := by
  unfold mousePressLeft
  conv_lhs => rw [hmode]
  unfold pressEdgeInsertBody
  rw [hhit]
  dsimp only [allocEdge]
  rw [addItem_edge_def]
  simp [pendingEdgeOf, mkEdgeId]

theorem mouseMoveLeft_edgeInsert_eq (t : Scene) (p : Pt) (er : ℕ)
    (hmode : t.mode = .EdgeInsert) (hcmd : t.command = some er) :
    mouseMoveLeft t p =
      { t with mouseOverNode :=
          itemOnTopOf t p true false [ItemRef.node (t.edgeEnv er).source] } := by
  unfold mouseMoveLeft
  rw [hmode]
  dsimp only
  rw [hcmd]

theorem moves_edgeInsert_eq (moves : List Pt) (t : Scene) (er : ℕ)
    (hmode : t.mode = .EdgeInsert) (hcmd : t.command = some er) :
    ∃ mo, moves.foldl mouseMoveLeft t = { t with mouseOverNode := mo } := by
  induction moves generalizing t with
  | nil => exact ⟨t.mouseOverNode, rfl⟩
  | cons p rest ih =>
    rw [List.foldl_cons,
        mouseMoveLeft_edgeInsert_eq t p er hmode hcmd]
    exact ih { t with mouseOverNode := _ } hmode hcmd

theorem mouseReleaseLeft_edgeInsert_commit_eq (t : Scene) (p : Pt)
    (er tr : ℕ) (hmode : t.mode = .EdgeInsert) (hcmd : t.command = some er)
    (hhit : itemOnTopOf t p true false [ItemRef.node (t.edgeEnv er).source] =
      some (ItemRef.node tr)) :
    mouseReleaseLeft t p =
      { clearSelection
          (updNode
            (updNode (updEdge t er (fun e => { e with target := some tr }))
              (t.edgeEnv er).source
              (fun n => { n with edges := dlAppend n.edges er }))
            tr (fun n => { n with edges := dlAppend n.edges er })) with
        undostack := t.undostack ++ [StackCmd.addEdge er],
        command := none, mouseOverNode := none, mousePressPos := none,
        mousePressNode := none, mousePressNodePos := none,
        mousePressData := none } := by
  unfold mouseReleaseLeft
  conv_lhs => rw [hmode]
  unfold releaseEdgeInsertBody
  rw [hcmd]
  dsimp only
  rw [hhit]
  try rfl

theorem mouseReleaseLeft_edgeInsert_discard_eq (t : Scene) (p : Pt)
    (er : ℕ) (hmode : t.mode = .EdgeInsert) (hcmd : t.command = some er)
    (hhit : itemOnTopOf t p true false [ItemRef.node (t.edgeEnv er).source] =
      none) :
    mouseReleaseLeft t p =
      { clearSelection (removeItem t (.edge er)) with
        command := none, mouseOverNode := none, mousePressPos := none,
        mousePressNode := none, mousePressNodePos := none,
        mousePressData := none } := by
  unfold mouseReleaseLeft
  conv_lhs => rw [hmode]
  unfold releaseEdgeInsertBody
  rw [hcmd]
  dsimp only
  rw [hhit]
  try rfl

theorem mdel_mset_same {κ α : Type} [DecidableEq κ] (m : κ → Option α)
    (k : κ) (v : α) : mdel (mset m k v) k = mdel m k := by
  funext k'
  by_cases h : k' = k <;> simp [mdel, mset, h]

theorem dlAppend_not_mem_eq {α : Type} [DecidableEq α] (l : List α) (a : α)
    (h : a ∉ l) : dlAppend l a = l ++ [a] := by
  simp [dlAppend, h]

theorem erase_append_singleton {α : Type} [DecidableEq α] (l : List α)
    (a : α) (h : a ∉ l) : (l ++ [a]).erase a = l := by
  rw [List.erase_append_right _ h]
  simp

theorem releaseCommit_props (t : Scene) (p : Pt) (er tr src : ℕ)
    (hmode : t.mode = .EdgeInsert) (hcmd : t.command = some er)
    (hsrc : (t.edgeEnv er).source = src) (htr : tr ≠ src)
    (hrel : itemOnTopOf t p true false [ItemRef.node src] =
      some (ItemRef.node tr)) :
    ((mouseReleaseLeft t p).edgeEnv er).target = some tr ∧
    er ∈ ((mouseReleaseLeft t p).nodeEnv src).edges ∧
    er ∈ ((mouseReleaseLeft t p).nodeEnv tr).edges ∧
    (mouseReleaseLeft t p).undostack = t.undostack ++ [StackCmd.addEdge er] := by
  have hrel' : itemOnTopOf t p true false
      [ItemRef.node (t.edgeEnv er).source] = some (ItemRef.node tr) := by
    rw [hsrc]
    exact hrel
  rw [mouseReleaseLeft_edgeInsert_commit_eq t p er tr hmode hcmd hrel', hsrc]
  refine ⟨?_, ?_, ?_, rfl⟩
  · simp [clearSelection, updNode, updEdge]
  · simp only [clearSelection, updNode, updEdge]
    simp [Ne.symm htr]
    exact mem_dlAppend_self _ _
  · simp only [clearSelection, updNode, updEdge]
    simp
    exact mem_dlAppend_self _ _

theorem releaseDiscard_props (t : Scene) (p : Pt) (er src : ℕ)
    (hmode : t.mode = .EdgeInsert) (hcmd : t.command = some er)
    (hsrc : (t.edgeEnv er).source = src)
    (hrel : itemOnTopOf t p true false [ItemRef.node src] = none) :
    (mouseReleaseLeft t p).edgesById = mdel t.edgesById (t.edgeEnv er).id ∧
    (mouseReleaseLeft t p).undostack = t.undostack ∧
    (mouseReleaseLeft t p).itemList = t.itemList.erase (ItemRef.edge er) := by
  have hrel' : itemOnTopOf t p true false
      [ItemRef.node (t.edgeEnv er).source] = none := by
    rw [hsrc]
    exact hrel
  rw [mouseReleaseLeft_edgeInsert_discard_eq t p er hmode hcmd hrel',
      removeItem_edge_def]
  exact ⟨rfl, rfl, rfl⟩

/-- C2: starting in `EdgeInsert` mode over a node (the press creates the
pending edge `s.nextRef` with a fresh id and holds the command), after any
number of drag moves a release over a node other than the source sets the
pending edge's target to that node, registers the edge on both endpoint
nodes' edge sets and pushes exactly one `AddEdge` command (stack depth +1);
a release over empty space — or over only the source, which the skip set
reduces to the same `none` query result — removes the pending edge from the
scene, pushes no command, and returns `edgesById` to its exact value before
the press. -/
theorem c2_edge_insert_release (s : Scene) (k : EdgeKind) (p₁ : Pt)
    (moves : List Pt) (p₂ : Pt) (src : ℕ)
    (hmode : s.mode = .EdgeInsert)
    (hhit : itemOnTopOf s p₁ true false [] = some (ItemRef.node src))
    (hfresh : s.edgesById (mkEdgeId s.nextEdgeId) = none)
    (hlist : ItemRef.edge s.nextRef ∉ s.itemList) :
    (∀ tr, itemOnTopOf (moves.foldl mouseMoveLeft (mousePressLeft s k p₁)) p₂
        true false [ItemRef.node src] = some (ItemRef.node tr) →
      ((mouseReleaseLeft (moves.foldl mouseMoveLeft (mousePressLeft s k p₁))
          p₂).edgeEnv s.nextRef).target = some tr ∧
      s.nextRef ∈ ((mouseReleaseLeft (moves.foldl mouseMoveLeft
          (mousePressLeft s k p₁)) p₂).nodeEnv src).edges ∧
      s.nextRef ∈ ((mouseReleaseLeft (moves.foldl mouseMoveLeft
          (mousePressLeft s k p₁)) p₂).nodeEnv tr).edges ∧
      (mouseReleaseLeft (moves.foldl mouseMoveLeft (mousePressLeft s k p₁))
          p₂).undostack = s.undostack ++ [StackCmd.addEdge s.nextRef]) ∧
    (itemOnTopOf (moves.foldl mouseMoveLeft (mousePressLeft s k p₁)) p₂
        true false [ItemRef.node src] = none →
      (mouseReleaseLeft (moves.foldl mouseMoveLeft (mousePressLeft s k p₁))
          p₂).edgesById = s.edgesById ∧
      (mouseReleaseLeft (moves.foldl mouseMoveLeft (mousePressLeft s k p₁))
          p₂).undostack = s.undostack ∧
      ItemRef.edge s.nextRef ∉ (mouseReleaseLeft (moves.foldl mouseMoveLeft
          (mousePressLeft s k p₁)) p₂).itemList) := by
  have hpress := mousePressLeft_edgeInsert_eq s k p₁ src hmode hhit
  obtain ⟨mo, hmo⟩ := moves_edgeInsert_eq moves (mousePressLeft s k p₁)
    s.nextRef (by rw [hpress]; exact hmode) (by rw [hpress])
  rw [hpress] at hmo
  have htmode : (moves.foldl mouseMoveLeft (mousePressLeft s k p₁)).mode =
      .EdgeInsert := by
    rw [hpress, hmo]
    exact hmode
  have htcmd : (moves.foldl mouseMoveLeft (mousePressLeft s k p₁)).command =
      some s.nextRef := by
    rw [hpress, hmo]
  have htenv : (moves.foldl mouseMoveLeft
      (mousePressLeft s k p₁)).edgeEnv s.nextRef = pendingEdgeOf s k src := by
    rw [hpress, hmo]
    simp
  have htsrc : ((moves.foldl mouseMoveLeft
      (mousePressLeft s k p₁)).edgeEnv s.nextRef).source = src := by
    rw [htenv]
    rfl
  have htundo : (moves.foldl mouseMoveLeft
      (mousePressLeft s k p₁)).undostack = s.undostack := by
    rw [hpress, hmo]
  have htbyid : (moves.foldl mouseMoveLeft
      (mousePressLeft s k p₁)).edgesById =
      mset s.edgesById (mkEdgeId s.nextEdgeId) s.nextRef := by
    rw [hpress, hmo]
  have htlist : (moves.foldl mouseMoveLeft
      (mousePressLeft s k p₁)).itemList =
      dlAppend s.itemList (ItemRef.edge s.nextRef) := by
    rw [hpress, hmo]
  constructor
  · intro tr hrel
    have htr : tr ≠ src := by
      have hmem := ((itemOnTopOf_aux _ p₂ true false [ItemRef.node src]).2 _
        hrel).2.1
      intro hco
      subst hco
      exact hmem (List.mem_cons_self _ _)
    obtain ⟨h1, h2, h3, h4⟩ := releaseCommit_props _ p₂ s.nextRef tr src
      htmode htcmd htsrc htr hrel
    exact ⟨h1, h2, h3, by rw [h4, htundo]⟩
  · intro hrel
    obtain ⟨h1, h2, h3⟩ := releaseDiscard_props _ p₂ s.nextRef src
      htmode htcmd htsrc hrel
    have hid : ((moves.foldl mouseMoveLeft
        (mousePressLeft s k p₁)).edgeEnv s.nextRef).id =
        mkEdgeId s.nextEdgeId := by
      rw [htenv]
      rfl
    refine ⟨?_, by rw [h2, htundo], ?_⟩
    · rw [h1, hid, htbyid, mdel_mset_same, mdel_absent _ _ hfresh]
    · rw [h3, htlist, dlAppend_not_mem_eq _ _ hlist,
          erase_append_singleton _ _ hlist]
      exact hlist

/-- Witness for C2: on the concrete scene, pressing over node 0 and releasing
over node 1 commits the pending edge 2 (target set, both `edges` sets updated,
exactly one AddEdge pushed), while releasing over empty space discards it and
restores `edgesById` and the stack. -/
theorem c2_witness :
    (((mouseReleaseLeft (mousePressLeft exSceneC2 .Inclusion ⟨0, 0⟩)
        ⟨5, 5⟩).edgeEnv 2).target = some 1 ∧
      2 ∈ ((mouseReleaseLeft (mousePressLeft exSceneC2 .Inclusion ⟨0, 0⟩)
        ⟨5, 5⟩).nodeEnv 0).edges ∧
      2 ∈ ((mouseReleaseLeft (mousePressLeft exSceneC2 .Inclusion ⟨0, 0⟩)
        ⟨5, 5⟩).nodeEnv 1).edges ∧
      (mouseReleaseLeft (mousePressLeft exSceneC2 .Inclusion ⟨0, 0⟩)
        ⟨5, 5⟩).undostack =
        exSceneC2.undostack ++ [StackCmd.addEdge 2]) ∧
    ((mouseReleaseLeft (mousePressLeft exSceneC2 .Inclusion ⟨0, 0⟩)
        ⟨9, 9⟩).edgesById = exSceneC2.edgesById ∧
      (mouseReleaseLeft (mousePressLeft exSceneC2 .Inclusion ⟨0, 0⟩)
        ⟨9, 9⟩).undostack = exSceneC2.undostack ∧
      ItemRef.edge 2 ∉ (mouseReleaseLeft (mousePressLeft exSceneC2 .Inclusion
        ⟨0, 0⟩) ⟨9, 9⟩).itemList) := by
  have hc := c2_edge_insert_release exSceneC2 .Inclusion ⟨0, 0⟩ [] ⟨5, 5⟩ 0
    rfl (by decide) rfl (by decide)
  have hd := c2_edge_insert_release exSceneC2 .Inclusion ⟨0, 0⟩ [] ⟨9, 9⟩ 0
    rfl (by decide) rfl (by decide)
  exact ⟨hc.1 1 (by decide), hd.2 (by decide)⟩

theorem itemOnTopOf_nodesOnly (s : Scene) (p : Pt) (skip : List ItemRef)
    (r : ItemRef) (h : itemOnTopOf s p true false skip = some r) :
    r.isNode = true := by
  have hmem := ((itemOnTopOf_aux s p true false skip).2 r h).1
  unfold hitCandidates at hmem
  have hcond := List.of_mem_filter hmem
  simp only [Bool.true_and, Bool.false_and, Bool.or_false,
    Bool.and_eq_true] at hcond
  exact hcond.1

/-- Counterexample to C3 as stated: on the concrete scene, immediately after
the `EdgeInsert` press the held pending edge (object 2) *is* present in
`edgesById` under its fresh id "e0", with its `target` still absent — the
press handler calls `self.addItem(edge)` (scene.py 224), which indexes the
provisional edge. -/
theorem c3_counterexample :
    (mousePressLeft exSceneC2 .Inclusion ⟨0, 0⟩).command = some 2 ∧
    (mousePressLeft exSceneC2 .Inclusion ⟨0, 0⟩).edgesById "e0" = some 2 ∧
    ((mousePressLeft exSceneC2 .Inclusion ⟨0, 0⟩).edgeEnv 2).target = none := by
  exact ⟨by decide, by decide, by decide⟩

/-- C3 (amended): during interactive edge insertion the provisional edge
*is* indexed in `edgesById` from the press on (with absent target), the one
transient exception to the no-null-endpoint invariant; the release restores
the invariant — committing sets the target and discarding removes the edge —
so provided every edge indexed before the press had a present target (and no
stale binding aliases the fresh ref), after the release every edge indexed
in `edgesById` again has a present target. -/
theorem c3_pending_edge_indexing (s : Scene) (k : EdgeKind) (p₁ : Pt)
    (moves : List Pt) (p₂ : Pt) (src : ℕ)
    (hmode : s.mode = .EdgeInsert)
    (hhit : itemOnTopOf s p₁ true false [] = some (ItemRef.node src))
    (hAll : ∀ key r, s.edgesById key = some r → (s.edgeEnv r).target ≠ none)
    (hNoRef : ∀ key, s.edgesById key ≠ some s.nextRef) :
    ((moves.foldl mouseMoveLeft (mousePressLeft s k p₁)).edgesById
        (mkEdgeId s.nextEdgeId) = some s.nextRef ∧
      ((moves.foldl mouseMoveLeft (mousePressLeft s k p₁)).edgeEnv
        s.nextRef).target = none) ∧
    ∀ key r, (mouseReleaseLeft (moves.foldl mouseMoveLeft
        (mousePressLeft s k p₁)) p₂).edgesById key = some r →
      ((mouseReleaseLeft (moves.foldl mouseMoveLeft (mousePressLeft s k p₁))
        p₂).edgeEnv r).target ≠ none := by
  have hpress := mousePressLeft_edgeInsert_eq s k p₁ src hmode hhit
  obtain ⟨mo, hmo⟩ := moves_edgeInsert_eq moves (mousePressLeft s k p₁)
    s.nextRef (by rw [hpress]; exact hmode) (by rw [hpress])
  rw [hpress] at hmo
  have htmode : (moves.foldl mouseMoveLeft (mousePressLeft s k p₁)).mode =
      .EdgeInsert := by
    rw [hpress, hmo]
    exact hmode
  have htcmd : (moves.foldl mouseMoveLeft (mousePressLeft s k p₁)).command =
      some s.nextRef := by
    rw [hpress, hmo]
  have htenv : (moves.foldl mouseMoveLeft
      (mousePressLeft s k p₁)).edgeEnv s.nextRef = pendingEdgeOf s k src := by
    rw [hpress, hmo]
    simp
  have htenvO : ∀ r, r ≠ s.nextRef → (moves.foldl mouseMoveLeft
      (mousePressLeft s k p₁)).edgeEnv r = s.edgeEnv r := by
    intro r hr
    rw [hpress, hmo]
    simp [hr]
  have htsrc : ((moves.foldl mouseMoveLeft
      (mousePressLeft s k p₁)).edgeEnv s.nextRef).source = src := by
    rw [htenv]
    rfl
  have htbyid : (moves.foldl mouseMoveLeft
      (mousePressLeft s k p₁)).edgesById =
      mset s.edgesById (mkEdgeId s.nextEdgeId) s.nextRef := by
    rw [hpress, hmo]
  refine ⟨⟨by rw [htbyid, mset_same], by rw [htenv]; rfl⟩, ?_⟩
  intro key r hkey
  cases hq : itemOnTopOf (moves.foldl mouseMoveLeft (mousePressLeft s k p₁))
      p₂ true false [ItemRef.node src] with
  | some res =>
    cases res with
    | node tr =>
      have htr : tr ≠ src := by
        have hmem := ((itemOnTopOf_aux _ p₂ true false [ItemRef.node src]).2 _
          hq).2.1
        intro hco
        subst hco
        exact hmem (List.mem_cons_self _ _)
      have hq' : itemOnTopOf (moves.foldl mouseMoveLeft
          (mousePressLeft s k p₁)) p₂ true false
          [ItemRef.node ((moves.foldl mouseMoveLeft
            (mousePressLeft s k p₁)).edgeEnv s.nextRef).source] =
          some (ItemRef.node tr) := by
        rw [htsrc]
        exact hq
      have hrec := mouseReleaseLeft_edgeInsert_commit_eq _ p₂ s.nextRef tr
        htmode htcmd hq'
      have hbyid : (mouseReleaseLeft (moves.foldl mouseMoveLeft
          (mousePressLeft s k p₁)) p₂).edgesById =
          mset s.edgesById (mkEdgeId s.nextEdgeId) s.nextRef := by
        rw [hrec]
        exact htbyid
      rw [hbyid] at hkey
      by_cases hk : key = mkEdgeId s.nextEdgeId
      · subst hk
        rw [mset_same] at hkey
        obtain rfl := Option.some_injective _ hkey
        rw [hrec]
        simp [clearSelection, updNode, updEdge]
      · rw [mset_other _ _ _ _ hk] at hkey
        have hrne : r ≠ s.nextRef := by
          intro hco
          subst hco
          exact hNoRef key hkey
        have : ((mouseReleaseLeft (moves.foldl mouseMoveLeft
            (mousePressLeft s k p₁)) p₂).edgeEnv r).target =
            (s.edgeEnv r).target := by
          rw [hrec]
          simp only [clearSelection, updNode, updEdge]
          simp [hrne]
          rw [htenvO r hrne]
        rw [this]
        exact hAll key r hkey
    | edge x =>
      have := itemOnTopOf_nodesOnly _ p₂ [ItemRef.node src] (ItemRef.edge x) hq
      exact Bool.noConfusion this
  | none =>
    have hq' : itemOnTopOf (moves.foldl mouseMoveLeft
        (mousePressLeft s k p₁)) p₂ true false
        [ItemRef.node ((moves.foldl mouseMoveLeft
          (mousePressLeft s k p₁)).edgeEnv s.nextRef).source] = none := by
      rw [htsrc]
      exact hq
    have hrec := mouseReleaseLeft_edgeInsert_discard_eq _ p₂ s.nextRef
      htmode htcmd hq'
    have hid : ((moves.foldl mouseMoveLeft
        (mousePressLeft s k p₁)).edgeEnv s.nextRef).id =
        mkEdgeId s.nextEdgeId := by
      rw [htenv]
      rfl
    have hbyid : (mouseReleaseLeft (moves.foldl mouseMoveLeft
        (mousePressLeft s k p₁)) p₂).edgesById =
        mdel s.edgesById (mkEdgeId s.nextEdgeId) := by
      rw [hrec, removeItem_edge_def]
      show mdel (moves.foldl mouseMoveLeft
        (mousePressLeft s k p₁)).edgesById ((moves.foldl mouseMoveLeft
        (mousePressLeft s k p₁)).edgeEnv s.nextRef).id = _
      rw [hid, htbyid, mdel_mset_same]
    rw [hbyid] at hkey
    by_cases hk : key = mkEdgeId s.nextEdgeId
    · subst hk
      rw [mdel_same] at hkey
      exact Option.noConfusion hkey
    · rw [mdel_other _ _ _ hk] at hkey
      have hrne : r ≠ s.nextRef := by
        intro hco
        subst hco
        exact hNoRef key hkey
      have henv : ((mouseReleaseLeft (moves.foldl mouseMoveLeft
          (mousePressLeft s k p₁)) p₂).edgeEnv r).target =
          (s.edgeEnv r).target := by
        rw [hrec]
        simp only [clearSelection, removeItem_edge_def]
        rw [htenvO r hrne]
      rw [henv]
      exact hAll key r hkey

/-- Witness for C3 (amended): on the concrete scene the press indexes the
pending edge under "e0" with absent target, and after the committing release
the edge indexed under "e0" has a present target. -/
theorem c3_witness :
    (mousePressLeft exSceneC2 .Inclusion ⟨0, 0⟩).edgesById "e0" = some 2 ∧
    ((mousePressLeft exSceneC2 .Inclusion ⟨0, 0⟩).edgeEnv 2).target = none ∧
    ((mouseReleaseLeft (mousePressLeft exSceneC2 .Inclusion ⟨0, 0⟩)
      ⟨5, 5⟩).edgeEnv 2).target ≠ none := by
  have h := c3_pending_edge_indexing exSceneC2 .Inclusion ⟨0, 0⟩ [] ⟨5, 5⟩ 0
    rfl (by decide)
    (by intro key r hkr; exact Option.noConfusion hkr)
    (by intro key hk; exact Option.noConfusion hk)
  exact ⟨h.1.1, h.1.2, h.2 "e0" 2 (by decide)⟩

/-!
## Node move: press capture, drag, release (claims C4, C5)
-/

theorem mousePressLeft_idle_eq (s : Scene) (k : EdgeKind) (p : Pt)
    (g : ItemRef) (hmode : s.mode = .Idle)
    (hsel : ¬selectedNodeRefs s = [])
    (hhit : itemOnTopOf s p true false [] = some g) :
    mousePressLeft s k p =
      { s with mousePressNode := some g,
               mousePressNodePos := some (refPos s g),
               mousePressPos := some p,
               mousePressData := some (buildMoveData s (selectedNodeRefs s)) } := by
  unfold mousePressLeft
  conv_lhs => rw [hmode]
  unfold pressIdleBody
  rw [if_neg hsel, hhit]
  rfl

theorem foldl_envframe {β : Type} (step : Scene → β → Scene)
    (hstep : ∀ s b, ∃ nE eE, step s b =
      { s with nodeEnv := nE, edgeEnv := eE }) :
    ∀ (l : List β) (s : Scene), ∃ nE eE,
      l.foldl step s = { s with nodeEnv := nE, edgeEnv := eE } := by
  intro l
  induction l with
  | nil => exact fun s => ⟨s.nodeEnv, s.edgeEnv, rfl⟩
  | cons b t ih =>
    intro s
    obtain ⟨nE, eE, hb⟩ := hstep s b
    obtain ⟨nE', eE', ht⟩ := ih (step s b)
    rw [hb] at ht
    rw [List.foldl_cons, hb]
    exact ⟨nE', eE', ht⟩

theorem applyMoveDelta_eq (s : Scene) (data : MoveData) (delta : Pt) :
    ∃ nE eE, applyMoveDelta s data delta =
      { s with nodeEnv := nE, edgeEnv := eE } := by
  unfold applyMoveDelta
  obtain ⟨nE1, eE1, h1⟩ := foldl_envframe
    (fun (s : Scene) (pr : ℕ × List Pt) => updEdge s pr.1
      (fun e => { e with breakpoints := assignBps e.breakpoints pr.2 delta }))
    (fun s pr => ⟨s.nodeEnv, _, rfl⟩) data.edges s
  obtain ⟨nE2, eE2, h2⟩ := foldl_envframe
    (fun (s : Scene) (pr : ℕ × NodeSnap) => updNode s pr.1
      (fun n =>
        { n with
          pos := pr.2.pos + delta,
          anchors := pr.2.anchors.foldl
            (fun a q => aset a q.1 (q.2 + delta)) n.anchors }))
    (fun s pr => ⟨_, s.edgeEnv, rfl⟩) data.nodes
    (data.edges.foldl
      (fun (s : Scene) (pr : ℕ × List Pt) => updEdge s pr.1
        (fun e => { e with breakpoints := assignBps e.breakpoints pr.2 delta }))
      s)
  rw [h1] at h2
  rw [h1]
  exact ⟨nE2, eE2, h2⟩

theorem applyMoveDelta_mode (s : Scene) (data : MoveData) (delta : Pt) :
    (applyMoveDelta s data delta).mode = s.mode := by
  obtain ⟨nE, eE, h⟩ := applyMoveDelta_eq s data delta
  rw [h]

theorem applyMoveDelta_undostack (s : Scene) (data : MoveData) (delta : Pt) :
    (applyMoveDelta s data delta).undostack = s.undostack := by
  obtain ⟨nE, eE, h⟩ := applyMoveDelta_eq s data delta
  rw [h]

theorem applyMoveDelta_mousePressData (s : Scene) (data : MoveData)
    (delta : Pt) :
    (applyMoveDelta s data delta).mousePressData = s.mousePressData := by
  obtain ⟨nE, eE, h⟩ := applyMoveDelta_eq s data delta
  rw [h]

theorem applyMoveDelta_mousePressNode (s : Scene) (data : MoveData)
    (delta : Pt) :
    (applyMoveDelta s data delta).mousePressNode = s.mousePressNode := by
  obtain ⟨nE, eE, h⟩ := applyMoveDelta_eq s data delta
  rw [h]

theorem applyMoveDelta_mousePressNodePos (s : Scene) (data : MoveData)
    (delta : Pt) :
    (applyMoveDelta s data delta).mousePressNodePos = s.mousePressNodePos := by
  obtain ⟨nE, eE, h⟩ := applyMoveDelta_eq s data delta
  rw [h]

theorem applyMoveDelta_mousePressPos (s : Scene) (data : MoveData)
    (delta : Pt) :
    (applyMoveDelta s data delta).mousePressPos = s.mousePressPos := by
  obtain ⟨nE, eE, h⟩ := applyMoveDelta_eq s data delta
  rw [h]

theorem mouseMoveLeft_capture (t : Scene) (p : Pt)
    (hmode : t.mode = .Idle ∨ t.mode = .NodeMove)
    (hcap : t.mousePressNode.isSome) :
    (mouseMoveLeft t p).mode = .NodeMove ∧
    (mouseMoveLeft t p).undostack = t.undostack ∧
    (mouseMoveLeft t p).mousePressData = t.mousePressData ∧
    (mouseMoveLeft t p).mousePressNode = t.mousePressNode ∧
    (mouseMoveLeft t p).mousePressNodePos = t.mousePressNodePos ∧
    (mouseMoveLeft t p).mousePressPos = t.mousePressPos := by
  rcases hmode with h | h
  · unfold mouseMoveLeft
    rw [h]
    dsimp only
    have hc1 : DiagramMode.Idle = DiagramMode.Idle ∧
        t.mousePressNode.isSome = true := ⟨rfl, hcap⟩
    rw [if_pos hc1]
    dsimp only
    have hc2 : ({ t with mode := DiagramMode.NodeMove } : Scene).mode =
        DiagramMode.NodeMove := rfl
    rw [if_pos hc2]
    cases hnp : t.mousePressNodePos with
    | none => exact ⟨rfl, rfl, rfl, rfl, rfl, rfl⟩
    | some gpos =>
      cases hpp : t.mousePressPos with
      | none => exact ⟨rfl, rfl, rfl, rfl, rfl, rfl⟩
      | some ppos =>
        cases hpd : t.mousePressData with
        | none => exact ⟨rfl, rfl, rfl, rfl, rfl, rfl⟩
        | some data =>
          dsimp only
          refine ⟨?_, ?_, ?_, ?_, ?_, ?_⟩
          · rw [applyMoveDelta_mode]
          · rw [applyMoveDelta_undostack]
          · rw [applyMoveDelta_mousePressData]
          · rw [applyMoveDelta_mousePressNode]
          · rw [applyMoveDelta_mousePressNodePos]
          · rw [applyMoveDelta_mousePressPos]
  · unfold mouseMoveLeft
    rw [h]
    dsimp only
    have hc1 : ¬(DiagramMode.NodeMove = DiagramMode.Idle ∧
        t.mousePressNode.isSome = true) :=
      fun hco => DiagramMode.noConfusion hco.1
    rw [if_neg hc1]
    rw [if_pos h]
    cases hnp : t.mousePressNodePos with
    | none => exact ⟨h, rfl, rfl, rfl, hnp, rfl⟩
    | some gpos =>
      cases hpp : t.mousePressPos with
      | none => exact ⟨h, rfl, rfl, rfl, hnp, hpp⟩
      | some ppos =>
        cases hpd : t.mousePressData with
        | none => exact ⟨h, rfl, hpd, rfl, hnp, hpp⟩
        | some data =>
          dsimp only
          refine ⟨?_, ?_, ?_, ?_, ?_, ?_⟩
          · rw [applyMoveDelta_mode]
            exact h
          · rw [applyMoveDelta_undostack]
          · rw [applyMoveDelta_mousePressData]
            exact hpd
          · rw [applyMoveDelta_mousePressNode]
          · rw [applyMoveDelta_mousePressNodePos]
            exact hnp
          · rw [applyMoveDelta_mousePressPos]
            exact hpp

theorem moves_nodeMove (rest : List Pt) :
    ∀ t : Scene, t.mode = .NodeMove → t.mousePressNode.isSome →
      (rest.foldl mouseMoveLeft t).mode = .NodeMove ∧
      (rest.foldl mouseMoveLeft t).undostack = t.undostack ∧
      (rest.foldl mouseMoveLeft t).mousePressData = t.mousePressData := by
  induction rest with
  | nil => exact fun t h _ => ⟨h, rfl, rfl⟩
  | cons p rs ih =>
    intro t h hcap
    obtain ⟨m1, m2, m3, m4, m5, m6⟩ :=
      mouseMoveLeft_capture t p (Or.inr h) hcap
    obtain ⟨r1, r2, r3⟩ := ih (mouseMoveLeft t p) m1 (by rw [m4]; exact hcap)
    refine ⟨?_, ?_, ?_⟩ <;> rw [List.foldl_cons]
    · exact r1
    · rw [r2, m2]
    · rw [r3, m3]

theorem mouseReleaseLeft_nodeMove (t : Scene) (p : Pt) (data : MoveData)
    (hmode : t.mode = .NodeMove) (hdata : t.mousePressData = some data) :
    (mouseReleaseLeft t p).undostack =
      t.undostack ++ [StackCmd.moveNodes data
        { nodes := data.nodes.map
            (fun pr : ℕ × NodeSnap => (pr.1, nodeSnapOf t pr.1)),
          edges := data.edges.map
            (fun pr : ℕ × List Pt => (pr.1, (t.edgeEnv pr.1).breakpoints)) }] ∧
    (mouseReleaseLeft t p).mode = .Idle := by
  unfold mouseReleaseLeft
  rw [hmode]
  dsimp only
  rw [hdata]
  exact ⟨rfl, rfl⟩

/-- C4: a completed drag gesture — an `Idle` press that captures a grabber
node with a non-empty selection, one or more left-drag moves, then a release
— pushes exactly one `CommandNodeMove` (the stack grows by exactly that one
command) and returns the scene to `Idle`, for every selection size, every
set of captured edges and every move list, including a gesture whose net
displacement is zero (nothing in the release path inspects the
displacement). -/
theorem c4_move_gesture_single_command (s : Scene) (k : EdgeKind) (p₀ : Pt)
    (m : Pt) (moves : List Pt) (pr : Pt) (g : ItemRef)
    (hmode : s.mode = .Idle)
    (hsel : ¬selectedNodeRefs s = [])
    (hhit : itemOnTopOf s p₀ true false [] = some g) :
    ∃ before after,
      (mouseReleaseLeft ((m :: moves).foldl mouseMoveLeft
          (mousePressLeft s k p₀)) pr).undostack =
        s.undostack ++ [StackCmd.moveNodes before after] ∧
      (mouseReleaseLeft ((m :: moves).foldl mouseMoveLeft
          (mousePressLeft s k p₀)) pr).mode = .Idle := by
  have hpress := mousePressLeft_idle_eq s k p₀ g hmode hsel hhit
  have hPmode : (mousePressLeft s k p₀).mode = .Idle := by
    rw [hpress]
    exact hmode
  have hPcap : (mousePressLeft s k p₀).mousePressNode.isSome := by
    rw [hpress]
    rfl
  have hPdata : (mousePressLeft s k p₀).mousePressData =
      some (buildMoveData s (selectedNodeRefs s)) := by
    rw [hpress]
  have hPundo : (mousePressLeft s k p₀).undostack = s.undostack := by
    rw [hpress]
  obtain ⟨m1, m2, m3, m4, m5, m6⟩ :=
    mouseMoveLeft_capture (mousePressLeft s k p₀) m (Or.inl hPmode) hPcap
  obtain ⟨r1, r2, r3⟩ := moves_nodeMove moves
    (mouseMoveLeft (mousePressLeft s k p₀) m) m1 (by rw [m4]; exact hPcap)
  have hTdata : (moves.foldl mouseMoveLeft
      (mouseMoveLeft (mousePressLeft s k p₀) m)).mousePressData =
      some (buildMoveData s (selectedNodeRefs s)) := by
    rw [r3, m3, hPdata]
  obtain ⟨u1, u2⟩ := mouseReleaseLeft_nodeMove
    (moves.foldl mouseMoveLeft (mouseMoveLeft (mousePressLeft s k p₀) m)) pr
    (buildMoveData s (selectedNodeRefs s)) r1 hTdata
  rw [List.foldl_cons]
  rw [r2, m2, hPundo] at u1
  exact ⟨_, _, u1, u2⟩

/-- Witness for C4 at a concrete zero-displacement gesture (press at the
origin, one move at the origin, release at the origin): the stack still
grows by exactly one move command and the mode returns to `Idle`. -/
theorem c4_witness :
    (mouseReleaseLeft (([⟨0, 0⟩] : List Pt).foldl mouseMoveLeft
        (mousePressLeft exSceneC4 .Inclusion ⟨0, 0⟩)) ⟨0, 0⟩).undostack.length =
      exSceneC4.undostack.length + 1 ∧
    (mouseReleaseLeft (([⟨0, 0⟩] : List Pt).foldl mouseMoveLeft
        (mousePressLeft exSceneC4 .Inclusion ⟨0, 0⟩)) ⟨0, 0⟩).mode = .Idle := by
  obtain ⟨b, a, h1, h2⟩ := c4_move_gesture_single_command exSceneC4
    .Inclusion ⟨0, 0⟩ ⟨0, 0⟩ [] ⟨0, 0⟩ (ItemRef.node 0)
    rfl (by decide) (by decide)
  constructor
  · rw [h1]
    simp
  · exact h2

/-- `applyMoveDelta` is the edge loop followed by the node loop. -/
theorem applyMoveDelta_foldl (s : Scene) (data : MoveData) (delta : Pt) :
    applyMoveDelta s data delta =
      data.nodes.foldl (mvNodeStep delta)
        (data.edges.foldl (mvEdgeStep delta) s) := rfl

/-- Unfolding `alookup` over a cons cell. -/
theorem alookup_cons (hd : ℕ × Pt) (t : List (ℕ × Pt)) (k : ℕ) :
    alookup (hd :: t) k = if hd.1 = k then some hd.2 else alookup t k := by
  rcases hd with ⟨k0, v0⟩
  by_cases h : k0 = k
  · subst h
    simp [alookup, List.find?]
  · have hb : (k0 == k) = false := beq_eq_false_iff_ne.mpr h
    simp [alookup, List.find?, hb, h]

/-- `aset` makes the written key read back the written value. -/
theorem alookup_aset_same (k : ℕ) (v : Pt) :
    ∀ a : List (ℕ × Pt), alookup (aset a k v) k = some v := by
  have hmap : ∀ a : List (ℕ × Pt), a.any (fun pr => pr.1 == k) = true →
      alookup (a.map (fun pr => if pr.1 == k then (k, v) else pr)) k =
        some v := by
    intro a
    induction a with
    | nil =>
      intro h
      simp at h
    | cons hd t ih =>
      intro h
      simp only [List.map_cons]
      by_cases h0 : hd.1 = k
      · rw [if_pos (beq_iff_eq.mpr h0)]
        simp [alookup_cons]
      · rw [if_neg (show ¬((hd.1 == k) = true) from by simp [h0])]
        rw [alookup_cons, if_neg h0]
        apply ih
        simp only [List.any_cons, Bool.or_eq_true] at h
        rcases h with h | h
        · exact absurd (beq_iff_eq.mp h) h0
        · exact h
  intro a
  unfold aset
  by_cases hmem : a.any (fun pr => pr.1 == k) = true
  · rw [if_pos hmem]
    exact hmap a hmem
  · rw [if_neg hmem]
    unfold alookup
    rw [List.find?_append]
    have h1 : a.find? (fun pr => pr.1 == k) = none := by
      rw [List.find?_eq_none]
      intro x hx hpx
      exact hmem (List.any_eq_true.mpr ⟨x, hx, hpx⟩)
    rw [h1, Option.none_or]
    simp [List.find?]

/-- `aset` leaves every other key's reading unchanged. -/
theorem alookup_aset_ne (k k' : ℕ) (v : Pt) (hk : k' ≠ k) :
    ∀ a : List (ℕ × Pt), alookup (aset a k v) k' = alookup a k' := by
  have hmap : ∀ a : List (ℕ × Pt),
      alookup (a.map (fun pr => if pr.1 == k then (k, v) else pr)) k' =
        alookup a k' := by
    intro a
    induction a with
    | nil => rfl
    | cons hd t ih =>
      simp only [List.map_cons]
      by_cases h0 : hd.1 = k
      · rw [if_pos (beq_iff_eq.mpr h0), alookup_cons, alookup_cons,
          if_neg (fun he => hk he.symm),
          if_neg (fun he : hd.1 = k' => hk (he ▸ h0)), ih]
      · rw [if_neg (show ¬((hd.1 == k) = true) from by simp [h0])]
        rw [alookup_cons, alookup_cons, ih]
  intro a
  unfold aset
  by_cases hmem : a.any (fun pr => pr.1 == k) = true
  · rw [if_pos hmem]
    exact hmap a
  · rw [if_neg hmem]
    unfold alookup
    rw [List.find?_append]
    have h2 : List.find? (fun pr => pr.1 == k') [(k, v)] = none := by
      have hb : (k == k') = false :=
        beq_eq_false_iff_ne.mpr (fun he => hk he.symm)
      simp [List.find?, hb]
    rw [h2, Option.or_none]

/-- The anchor-assignment loop leaves absent keys unchanged. -/
theorem anchorFold_frame (delta : Pt) :
    ∀ (l : List (ℕ × Pt)) (a : List (ℕ × Pt)) (q : ℕ),
      q ∉ l.map Prod.fst →
      alookup (l.foldl (fun a pr => aset a pr.1 (pr.2 + delta)) a) q =
        alookup a q := by
  intro l
  induction l with
  | nil =>
    intro a q _
    rfl
  | cons hd t ih =>
    intro a q hq
    rw [List.map_cons] at hq
    rw [List.foldl_cons, ih _ q (fun h => hq (List.mem_cons_of_mem _ h))]
    exact alookup_aset_ne hd.1 q (hd.2 + delta)
      (fun h => hq (by rw [h]; exact List.mem_cons_self _ _)) a

/-- The anchor-assignment loop writes every listed key (keys distinct). -/
theorem anchorFold_env (delta : Pt) :
    ∀ (l : List (ℕ × Pt)) (a : List (ℕ × Pt)) (q : ℕ × Pt),
      (l.map Prod.fst).Nodup → q ∈ l →
      alookup (l.foldl (fun a pr => aset a pr.1 (pr.2 + delta)) a) q.1 =
        some (q.2 + delta) := by
  intro l
  induction l with
  | nil =>
    intro a q _ h
    exact absurd h (List.not_mem_nil _)
  | cons hd t ih =>
    intro a q hnd hmem
    rw [List.map_cons, List.nodup_cons] at hnd
    rw [List.foldl_cons]
    rcases List.mem_cons.mp hmem with h | h
    · subst h
      rw [anchorFold_frame delta t _ q.1 hnd.1]
      exact alookup_aset_same q.1 (q.2 + delta) a
    · exact ih _ q hnd.2 h

/-- The edge loop never touches the node heap. -/
theorem mvEdgeFold_nodeEnv (delta : Pt) :
    ∀ (l : List (ℕ × List Pt)) (s : Scene),
      (l.foldl (mvEdgeStep delta) s).nodeEnv = s.nodeEnv := by
  intro l
  induction l with
  | nil =>
    intro s
    rfl
  | cons hd t ih =>
    intro s
    rw [List.foldl_cons, ih]
    rfl

/-- The node loop never touches the edge heap. -/
theorem mvNodeFold_edgeEnv (delta : Pt) :
    ∀ (l : List (ℕ × NodeSnap)) (s : Scene),
      (l.foldl (mvNodeStep delta) s).edgeEnv = s.edgeEnv := by
  intro l
  induction l with
  | nil =>
    intro s
    rfl
  | cons hd t ih =>
    intro s
    rw [List.foldl_cons, ih]
    rfl

/-- The edge loop leaves uncaptured edges unchanged. -/
theorem mvEdgeFold_frame (delta : Pt) :
    ∀ (l : List (ℕ × List Pt)) (s : Scene) (er : ℕ),
      er ∉ l.map Prod.fst →
      (l.foldl (mvEdgeStep delta) s).edgeEnv er = s.edgeEnv er := by
  intro l
  induction l with
  | nil =>
    intro s er _
    rfl
  | cons hd t ih =>
    intro s er hmem
    rw [List.map_cons] at hmem
    rw [List.foldl_cons, ih _ er (fun h => hmem (List.mem_cons_of_mem _ h))]
    have hne : er ≠ hd.1 :=
      fun h => hmem (by rw [h]; exact List.mem_cons_self _ _)
    simp [mvEdgeStep, updEdge, hne]

/-- The per-entry effect of the edge loop (keys distinct): the final
breakpoint list is the shifted snapshot overwriting the live prefix. -/
theorem mvEdgeFold_env (delta : Pt) :
    ∀ (l : List (ℕ × List Pt)) (s : Scene) (pr : ℕ × List Pt),
      (l.map Prod.fst).Nodup → pr ∈ l →
      (l.foldl (mvEdgeStep delta) s).edgeEnv pr.1 =
        { s.edgeEnv pr.1 with
          breakpoints :=
            assignBps (s.edgeEnv pr.1).breakpoints pr.2 delta } := by
  intro l
  induction l with
  | nil =>
    intro s pr _ h
    exact absurd h (List.not_mem_nil _)
  | cons hd t ih =>
    intro s pr hnd hmem
    rw [List.map_cons, List.nodup_cons] at hnd
    rw [List.foldl_cons]
    rcases List.mem_cons.mp hmem with h | h
    · subst h
      rw [mvEdgeFold_frame delta t _ pr.1 hnd.1]
      simp [mvEdgeStep, updEdge]
    · have hne : pr.1 ≠ hd.1 :=
        fun he => hnd.1 (by rw [← he]; exact List.mem_map_of_mem _ h)
      have hfr : (mvEdgeStep delta s hd).edgeEnv pr.1 = s.edgeEnv pr.1 := by
        simp [mvEdgeStep, updEdge, hne]
      rw [ih _ pr hnd.2 h, hfr]

/-- The node loop leaves uncaptured nodes unchanged. -/
theorem mvNodeFold_frame (delta : Pt) :
    ∀ (l : List (ℕ × NodeSnap)) (s : Scene) (r : ℕ),
      r ∉ l.map Prod.fst →
      (l.foldl (mvNodeStep delta) s).nodeEnv r = s.nodeEnv r := by
  intro l
  induction l with
  | nil =>
    intro s r _
    rfl
  | cons hd t ih =>
    intro s r hmem
    rw [List.map_cons] at hmem
    rw [List.foldl_cons, ih _ r (fun h => hmem (List.mem_cons_of_mem _ h))]
    have hne : r ≠ hd.1 :=
      fun h => hmem (by rw [h]; exact List.mem_cons_self _ _)
    simp [mvNodeStep, updNode, hne]

/-- The per-entry effect of the node loop (keys distinct): the final node
carries snapshot position plus delta and the anchor loop's result. -/
theorem mvNodeFold_env (delta : Pt) :
    ∀ (l : List (ℕ × NodeSnap)) (s : Scene) (pr : ℕ × NodeSnap),
      (l.map Prod.fst).Nodup → pr ∈ l →
      (l.foldl (mvNodeStep delta) s).nodeEnv pr.1 =
        { s.nodeEnv pr.1 with
          pos := pr.2.pos + delta,
          anchors := pr.2.anchors.foldl
            (fun a q => aset a q.1 (q.2 + delta))
            (s.nodeEnv pr.1).anchors } := by
  intro l
  induction l with
  | nil =>
    intro s pr _ h
    exact absurd h (List.not_mem_nil _)
  | cons hd t ih =>
    intro s pr hnd hmem
    rw [List.map_cons, List.nodup_cons] at hnd
    rw [List.foldl_cons]
    rcases List.mem_cons.mp hmem with h | h
    · subst h
      rw [mvNodeFold_frame delta t _ pr.1 hnd.1]
      simp [mvNodeStep, updNode]
    · have hne : pr.1 ≠ hd.1 :=
        fun he => hnd.1 (by rw [← he]; exact List.mem_map_of_mem _ h)
      have hfr : (mvNodeStep delta s hd).nodeEnv pr.1 = s.nodeEnv pr.1 := by
        simp [mvNodeStep, updNode, hne]
      rw [ih _ pr hnd.2 h, hfr]

/-- In `NodeMove` with a complete press capture, a move event is exactly one
`applyMoveDelta` at the event's delta. -/
theorem mouseMoveLeft_nodeMove_eq (s : Scene) (p gpos ppos : Pt)
    (data : MoveData) (hmode : s.mode = .NodeMove)
    (hnp : s.mousePressNodePos = some gpos)
    (hpp : s.mousePressPos = some ppos)
    (hpd : s.mousePressData = some data) :
    mouseMoveLeft s p =
      applyMoveDelta s data (snapToGrid s (gpos + p - ppos) - gpos) := by
  unfold mouseMoveLeft
  rw [hmode]
  dsimp only
  have hc1 : ¬(DiagramMode.NodeMove = DiagramMode.Idle ∧
      s.mousePressNode.isSome = true) :=
    fun hco => DiagramMode.noConfusion hco.1
  rw [if_neg hc1]
  rw [if_pos hmode]
  rw [hnp, hpp, hpd]

/-- C5: in `NodeMove` mode (captured grabber position `gpos`, press position
`ppos`, snapshot `data` with duplicate-free captured keys), one mouse-move
event at `p` sets every captured node's position to its snapshot position
plus `delta`, re-applies each of its anchor overrides at snapshot anchor
plus `delta`, and sets each breakpoint of every captured edge to its
snapshot value plus the same `delta`, where
`delta = snapToGrid(gpos + p - ppos) - gpos`. -/
theorem c5_move_event_effects (s : Scene) (p gpos ppos delta : Pt)
    (data : MoveData)
    (hmode : s.mode = .NodeMove)
    (hnp : s.mousePressNodePos = some gpos)
    (hpp : s.mousePressPos = some ppos)
    (hpd : s.mousePressData = some data)
    (hdelta : delta = snapToGrid s (gpos + p - ppos) - gpos)
    (hnd : (data.nodes.map Prod.fst).Nodup)
    (hed : (data.edges.map Prod.fst).Nodup) :
    (∀ pr ∈ data.nodes,
      ((mouseMoveLeft s p).nodeEnv pr.1).pos = pr.2.pos + delta) ∧
    (∀ pr ∈ data.nodes, ∀ q ∈ pr.2.anchors,
      (pr.2.anchors.map Prod.fst).Nodup →
      alookup ((mouseMoveLeft s p).nodeEnv pr.1).anchors q.1 =
        some (q.2 + delta)) ∧
    (∀ pr ∈ data.edges, ∀ i : ℕ, i < pr.2.length →
      ((mouseMoveLeft s p).edgeEnv pr.1).breakpoints[i]? =
        pr.2[i]?.map (fun b => b + delta)) := by
  subst hdelta
  rw [mouseMoveLeft_nodeMove_eq s p gpos ppos data hmode hnp hpp hpd,
    applyMoveDelta_foldl]
  refine ⟨?_, ?_, ?_⟩
  · intro pr hmem
    rw [mvNodeFold_env _ data.nodes _ pr hnd hmem]
  · intro pr hmem q hq hqnd
    rw [mvNodeFold_env _ data.nodes _ pr hnd hmem]
    exact anchorFold_env _ pr.2.anchors _ q hqnd hq
  · intro pr hmem i hi
    rw [congrFun (mvNodeFold_edgeEnv _ data.nodes _) pr.1]
    rw [mvEdgeFold_env _ data.edges s pr hed hmem]
    dsimp only
    unfold assignBps
    rw [List.getElem?_append_left (by rw [List.length_map]; exact hi)]
    rw [List.getElem?_map]

/-- Witness for C5 at the concrete move to (4,0): delta is (4,0); the
captured node lands at (6,3), its anchor override at (9,5), and the captured
edge's breakpoint at (5,1). -/
theorem c5_witness :
    ((mouseMoveLeft exSceneC5 ⟨4, 0⟩).nodeEnv 0).pos = (⟨6, 3⟩ : Pt) ∧
    alookup ((mouseMoveLeft exSceneC5 ⟨4, 0⟩).nodeEnv 0).anchors 1 =
      some (⟨9, 5⟩ : Pt) ∧
    ((mouseMoveLeft exSceneC5 ⟨4, 0⟩).edgeEnv 1).breakpoints[0]? =
      some (⟨5, 1⟩ : Pt) := by
  obtain ⟨h1, h2, h3⟩ := c5_move_event_effects exSceneC5 ⟨4, 0⟩ ⟨0, 0⟩ ⟨0, 0⟩
    ⟨4, 0⟩ exDataC5 rfl rfl rfl rfl
    (by norm_num [snapToGrid, exSceneC5, initScene, Pt.add_def, Pt.sub_def])
    (by decide) (by decide)
  refine ⟨?_, ?_, ?_⟩
  · exact (h1 (0, { anchors := [(1, ⟨5, 5⟩)], pos := ⟨2, 3⟩ })
      (List.mem_singleton.mpr rfl)).trans (by norm_num [Pt.add_def])
  · exact (h2 (0, { anchors := [(1, ⟨5, 5⟩)], pos := ⟨2, 3⟩ })
      (List.mem_singleton.mpr rfl) (1, ⟨5, 5⟩) (List.mem_singleton.mpr rfl)
      (by decide)).trans (by norm_num [Pt.add_def])
  · exact (h3 (1, [(⟨1, 1⟩ : Pt)]) (List.mem_singleton.mpr rfl) 0
      (by decide)).trans (by norm_num [Pt.add_def])

/-- `offsetSearch` is the fold of `osStep` from `(None, sys.maxsize)`. -/
theorem offsetSearch_eq (s : Scene) (anchor rad : Pt) (offsets : List Pt) :
    offsetSearch s anchor rad offsets =
      offsets.foldl (osStep s anchor rad) (none, maxsize) := rfl

/-- The search loop is a no-op when no candidate beats the incoming best. -/
theorem osFold_noimp (s : Scene) (anchor rad : Pt) :
    ∀ (l : List Pt) (op : Option Pt) (b : ℕ),
      (∀ o ∈ l, b ≤ probeCount s anchor rad o) →
      l.foldl (osStep s anchor rad) (op, b) = (op, b) := by
  intro l
  induction l with
  | nil =>
    intro op b _
    rfl
  | cons o t ih =>
    intro op b h
    rw [List.foldl_cons]
    have hb : ¬ probeCount s anchor rad o < b :=
      not_lt.mpr (h o (List.mem_cons_self _ _))
    have hstep : osStep s anchor rad (op, b) o = (op, b) := by
      simp [osStep, hb]
    rw [hstep]
    exact ih op b (fun o' ho' => h o' (List.mem_cons_of_mem _ ho'))

/-- The search loop, started at best `b`, lands on the earliest candidate
attaining the minimum occupancy, provided some candidate beats `b`. -/
theorem osFold_spec (s : Scene) (anchor rad : Pt) :
    ∀ (l : List Pt) (op : Option Pt) (b : ℕ),
      (∃ o ∈ l, probeCount s anchor rad o < b) →
      ∃ k, k < l.length ∧
        l.foldl (osStep s anchor rad) (op, b) =
          (some (anchor + l.getD k ⟨0, 0⟩),
            probeCount s anchor rad (l.getD k ⟨0, 0⟩)) ∧
        probeCount s anchor rad (l.getD k ⟨0, 0⟩) < b ∧
        (∀ j, j < l.length →
          probeCount s anchor rad (l.getD k ⟨0, 0⟩) ≤
            probeCount s anchor rad (l.getD j ⟨0, 0⟩)) ∧
        (∀ j, j < k →
          probeCount s anchor rad (l.getD k ⟨0, 0⟩) <
            probeCount s anchor rad (l.getD j ⟨0, 0⟩)) := by
  intro l
  induction l with
  | nil =>
    intro op b h
    rcases h with ⟨o, ho, _⟩
    exact absurd ho (List.not_mem_nil _)
  | cons o t ih =>
    intro op b h
    rw [List.foldl_cons]
    by_cases h0 : probeCount s anchor rad o < b
    · have hstep : osStep s anchor rad (op, b) o =
          (some (anchor + o), probeCount s anchor rad o) := by
        simp [osStep, h0]
      rw [hstep]
      by_cases h1 : ∃ o' ∈ t,
          probeCount s anchor rad o' < probeCount s anchor rad o
      · obtain ⟨k, hk, heq, hlt, hall, hbefore⟩ :=
          ih (some (anchor + o)) (probeCount s anchor rad o) h1
        refine ⟨k + 1, by simp; omega, ?_, ?_, ?_, ?_⟩
        · rw [List.getD_cons_succ]
          exact heq
        · rw [List.getD_cons_succ]
          exact hlt.trans h0
        · intro j hj
          rcases j with _ | j
          · rw [List.getD_cons_succ, List.getD_cons_zero]
            exact le_of_lt hlt
          · rw [List.getD_cons_succ, List.getD_cons_succ]
            exact hall j (by simp at hj; omega)
        · intro j hj
          rcases j with _ | j
          · rw [List.getD_cons_succ, List.getD_cons_zero]
            exact hlt
          · rw [List.getD_cons_succ, List.getD_cons_succ]
            exact hbefore j (by omega)
      · push_neg at h1
        rw [osFold_noimp s anchor rad t _ _ h1]
        refine ⟨0, by simp, ?_, ?_, ?_, ?_⟩
        · rw [List.getD_cons_zero]
        · rw [List.getD_cons_zero]
          exact h0
        · intro j hj
          rcases j with _ | j
          · rw [List.getD_cons_zero]
          · rw [List.getD_cons_zero, List.getD_cons_succ]
            have hjt : j < t.length := by simp at hj; omega
            rw [List.getD_eq_getElem t ⟨0, 0⟩ hjt]
            exact h1 _ (List.getElem_mem hjt)
        · intro j hj
          exact absurd hj (Nat.not_lt_zero j)
    · have hstep : osStep s anchor rad (op, b) o = (op, b) := by
        simp [osStep, h0]
      rw [hstep]
      have h1 : ∃ o' ∈ t, probeCount s anchor rad o' < b := by
        rcases h with ⟨o', ho', hlt'⟩
        rcases List.mem_cons.mp ho' with he | hm
        · exact absurd (he ▸ hlt') h0
        · exact ⟨o', hm, hlt'⟩
      obtain ⟨k, hk, heq, hlt, hall, hbefore⟩ := ih op b h1
      refine ⟨k + 1, by simp; omega, ?_, ?_, ?_, ?_⟩
      · rw [List.getD_cons_succ]
        exact heq
      · rw [List.getD_cons_succ]
        exact hlt
      · intro j hj
        rcases j with _ | j
        · rw [List.getD_cons_succ, List.getD_cons_zero]
          exact le_trans (le_of_lt hlt) (not_lt.mp h0)
        · rw [List.getD_cons_succ, List.getD_cons_succ]
          exact hall j (by simp at hj; omega)
      · intro j hj
        rcases j with _ | j
        · rw [List.getD_cons_succ, List.getD_cons_zero]
          exact lt_of_lt_of_le hlt (not_lt.mp h0)
        · rw [List.getD_cons_succ, List.getD_cons_succ]
          exact hbefore j (by omega)

/-- C7: on a nonempty candidate list whose occupancies are all below
`sys.maxsize` (always true of a `len()`), the offset search picks
`anchor + o` for the earliest offset `o` attaining the minimal occupancy —
ties go to the earlier list position, so the search is deterministic. -/
theorem c7_offset_search_earliest (s : Scene) (anchor rad : Pt)
    (offsets : List Pt)
    (hne : offsets ≠ [])
    (hlt : ∀ o ∈ offsets, probeCount s anchor rad o < maxsize) :
    ∃ k, (offsetSearch s anchor rad offsets).1 =
        some (anchor + offsets.getD k ⟨0, 0⟩) ∧
      EarliestArgmin offsets.length
        (fun j => probeCount s anchor rad (offsets.getD j ⟨0, 0⟩)) k := by
  have hex : ∃ o ∈ offsets, probeCount s anchor rad o < maxsize := by
    rcases offsets with _ | ⟨o, t⟩
    · exact absurd rfl hne
    · exact ⟨o, List.mem_cons_self _ _, hlt o (List.mem_cons_self _ _)⟩
  obtain ⟨k, hk, heq, _, hall, hbefore⟩ :=
    osFold_spec s anchor rad offsets none maxsize hex
  refine ⟨k, ?_, hk, hall, hbefore⟩
  rw [offsetSearch_eq, heq]

/-- Witness for C7: on an empty scene all candidates tie at occupancy 0, and
the search returns the first of the two offsets. -/
theorem c7_witness :
    (offsetSearch exSceneC7 ⟨0, 0⟩ ⟨1, 1⟩
        [⟨1, 0⟩, ⟨2, 0⟩]).1 = some ((⟨0, 0⟩ : Pt) + ⟨1, 0⟩) := by
  obtain ⟨k, heq, hEA⟩ := c7_offset_search_earliest exSceneC7 ⟨0, 0⟩ ⟨1, 1⟩
    [⟨1, 0⟩, ⟨2, 0⟩] (by decide) (by decide)
  unfold EarliestArgmin at hEA
  obtain ⟨hk, hall, hbefore⟩ := hEA
  rcases k with _ | _ | k
  · exact heq
  · exact absurd (hbefore 0 (by decide)) (by decide)
  · exact absurd hk (by simp)

/-!
## C6: the symmetric-role composition
-/

/-- Snapping to the 20-unit grid moves a coordinate up by at most 10. -/
theorem snapF_upper (v : ℚ) : snapF v GridSize true ≤ v + 10 := by
  have h := abs_le.mp (abs_sub_round (v / 20))
  unfold snapF GridSize
  rw [if_pos rfl]
  have h2 := h.2
  linarith

/-- Snapping to the 20-unit grid moves a coordinate down by at most 10. -/
theorem snapF_lower (v : ℚ) : v - 10 ≤ snapF v GridSize true := by
  have h := abs_le.mp (abs_sub_round (v / 20))
  unfold snapF GridSize
  rw [if_pos rfl]
  have h1 := h.1
  linarith

/-- C6: on a source node distinct from the next fresh ref (any object already
in the scene), `symmetricRoleAxiomComposition` returns exactly three fresh
items — a RoleInverse node at the source's height and strictly to the right
of the source's right edge, an Input edge from the source to that node, and
an Inclusion edge from the source to that node carrying exactly two
breakpoints, both strictly above the source node's top edge (Qt's y axis
grows downward). -/
theorem c6_symmetric_role_composition (s : Scene) (src : ℕ)
    (hsrc : src ≠ s.nextRef) :
    (symmetricRoleAxiomComposition s src).2 =
      (s.nextRef, s.nextRef + 1, s.nextRef + 2) ∧
    s.nextRef ≠ s.nextRef + 1 ∧
    s.nextRef ≠ s.nextRef + 2 ∧
    s.nextRef + 1 ≠ s.nextRef + 2 ∧
    ((symmetricRoleAxiomComposition s src).1.nodeEnv s.nextRef).kind =
      .RoleInverse ∧
    ((symmetricRoleAxiomComposition s src).1.nodeEnv s.nextRef).pos.y =
      (s.nodeEnv src).pos.y ∧
    (s.nodeEnv src).pos.x + (s.nodeEnv src).width / 2 <
      ((symmetricRoleAxiomComposition s src).1.nodeEnv s.nextRef).pos.x ∧
    ((symmetricRoleAxiomComposition s src).1.edgeEnv (s.nextRef + 1)).kind =
      .Input ∧
    ((symmetricRoleAxiomComposition s src).1.edgeEnv (s.nextRef + 1)).source =
      src ∧
    ((symmetricRoleAxiomComposition s src).1.edgeEnv (s.nextRef + 1)).target =
      some s.nextRef ∧
    ((symmetricRoleAxiomComposition s src).1.edgeEnv (s.nextRef + 2)).kind =
      .Inclusion ∧
    ((symmetricRoleAxiomComposition s src).1.edgeEnv (s.nextRef + 2)).source =
      src ∧
    ((symmetricRoleAxiomComposition s src).1.edgeEnv (s.nextRef + 2)).target =
      some s.nextRef ∧
    ((symmetricRoleAxiomComposition s src).1.edgeEnv
        (s.nextRef + 2)).breakpoints.length = 2 ∧
    ∀ b ∈ ((symmetricRoleAxiomComposition s src).1.edgeEnv
        (s.nextRef + 2)).breakpoints,
      b.y < (s.nodeEnv src).pos.y - (s.nodeEnv src).height / 2 := by
  have h12 : s.nextRef ≠ s.nextRef + 1 := by omega
  have h13 : s.nextRef ≠ s.nextRef + 2 := by omega
  have h23 : s.nextRef + 1 ≠ s.nextRef + 2 := by omega
  have hnode : ((symmetricRoleAxiomComposition s src).1.nodeEnv s.nextRef) =
      { id := mkNodeId s.nextNodeId, kind := .RoleInverse, label := none,
        pos := ⟨snapF ((s.nodeEnv src).pos.x + (s.nodeEnv src).width / 2
            + 100) GridSize true, (s.nodeEnv src).pos.y⟩,
        width := defaultW .RoleInverse, height := defaultH .RoleInverse,
        zValue := 0, selected := false, edges := [], anchors := [] } := by
    simp [symmetricRoleAxiomComposition, allocNode, allocEdge, updNode]
  have hedge1 : ((symmetricRoleAxiomComposition s src).1.edgeEnv
      (s.nextRef + 1)) =
      { id := mkEdgeId s.nextEdgeId, kind := .Input, source := src,
        target := some s.nextRef, breakpoints := [], zValue := 0,
        selected := false, functional := false } := by
    simp [symmetricRoleAxiomComposition, allocNode, allocEdge, updNode, h23]
  have hedge2 : ((symmetricRoleAxiomComposition s src).1.edgeEnv
      (s.nextRef + 2)) =
      { id := mkEdgeId (s.nextEdgeId + 1), kind := .Inclusion, source := src,
        target := some s.nextRef,
        breakpoints :=
          [⟨(s.nodeEnv src).pos.x,
            snapF ((s.nodeEnv src).pos.y - (s.nodeEnv src).height / 2 - 80)
              GridSize true⟩,
           ⟨snapF ((s.nodeEnv src).pos.x + (s.nodeEnv src).width / 2 + 100)
              GridSize true,
            snapF ((s.nodeEnv src).pos.y - (s.nodeEnv src).height / 2 - 80)
              GridSize true⟩],
        zValue := 0, selected := false, functional := false } := by
    simp [symmetricRoleAxiomComposition, allocNode, allocEdge, updNode, h23]
  refine ⟨rfl, h12, h13, h23, ?_, ?_, ?_, ?_, ?_, ?_, ?_, ?_, ?_, ?_, ?_⟩
  · rw [hnode]
  · rw [hnode]
  · rw [hnode]
    have := snapF_lower ((s.nodeEnv src).pos.x + (s.nodeEnv src).width / 2
      + 100)
    dsimp only
    linarith
  · rw [hedge1]
  · rw [hedge1]
  · rw [hedge1]
  · rw [hedge2]
  · rw [hedge2]
  · rw [hedge2]
  · rw [hedge2]
    rfl
  · rw [hedge2]
    intro b hb
    have hy := snapF_upper ((s.nodeEnv src).pos.y -
      (s.nodeEnv src).height / 2 - 80)
    rcases List.mem_cons.mp hb with he | hb2
    · rw [he]
      dsimp only
      linarith
    · rcases List.mem_cons.mp hb2 with he | hb3
      · rw [he]
        dsimp only
        linarith
      · exact absurd hb3 (List.not_mem_nil _)

/-- Witness for C6 at the concrete scene: the hypothesis holds for source
ref 0, and the composed node behind the first fresh ref is a RoleInverse. -/
theorem c6_witness :
    (0 : ℕ) ≠ exSceneC6.nextRef ∧
    ((symmetricRoleAxiomComposition exSceneC6 0).1.nodeEnv
        exSceneC6.nextRef).kind = .RoleInverse :=
  ⟨by decide, (c6_symmetric_role_composition exSceneC6 0
    (by decide)).2.2.2.2.1⟩

/-- C8: every axiom-composition method returns its newly created items
without inserting any of them into the committed collections — `nodesById`,
`edgesById` and `nodesByLabel` are unchanged by the call itself, on every
path (including the searching composers' failure paths). -/
theorem c8_composition_frame (s : Scene) (src : ℕ) :
    IndicesUnchanged (symmetricRoleAxiomComposition s src).1 s ∧
    IndicesUnchanged (asymmetricRoleAxiomComposition s src).1 s ∧
    IndicesUnchanged (functionalAxiomComposition s src).1 s ∧
    IndicesUnchanged (inverseFunctionalAxiomComposition s src).1 s ∧
    IndicesUnchanged (propertyDomainAxiomComposition s src).1 s ∧
    IndicesUnchanged (irreflexiveRoleAxiomComposition s src).1 s ∧
    IndicesUnchanged (reflexiveRoleAxiomComposition s src).1 s ∧
    IndicesUnchanged (transitiveRoleAxiomComposition s src).1 s ∧
    IndicesUnchanged (propertyRangeAxiomComposition s src).1 s := by
  refine ⟨⟨rfl, rfl, rfl⟩, ⟨rfl, rfl, rfl⟩, ?_, ?_, ?_, ⟨rfl, rfl, rfl⟩,
    ⟨rfl, rfl, rfl⟩, ⟨rfl, rfl, rfl⟩, ?_⟩
  · refine ⟨?_, ?_, ?_⟩ <;>
      (unfold functionalAxiomComposition; dsimp only; split <;> rfl)
  · refine ⟨?_, ?_, ?_⟩ <;>
      (unfold inverseFunctionalAxiomComposition; dsimp only; split <;> rfl)
  · refine ⟨?_, ?_, ?_⟩ <;>
      (unfold propertyDomainAxiomComposition; dsimp only; split <;> rfl)
  · refine ⟨?_, ?_, ?_⟩ <;>
      (unfold propertyRangeAxiomComposition; dsimp only;
        (repeat' split) <;> rfl)
